import Mathlib

/-!
paramkit: a shallow embedding of `include/params.h`.

The header declares a small hierarchy of typed command-line parameters
(`Param`, `IntParam`, `StringParam`, `BoolParam`) and the registry `Params`
that owns them in a `std::map<std::string, Param*>`.

Conventions of the embedding.

* `uint64_t` and `DWORD` values are natural numbers; every store into such
  an object reduces modulo `2 ^ 64`, respectively `2 ^ 32`.
* A `char *` token is an `Option String`: `none` is the null pointer and
  `some s` is the text in front of the terminator.
* The object behind a `Param *` is a value of the sum type `ParamObj`; the
  registry is the list of the map's entries in key order.  `dynamic_cast`
  is a match on the constructor.
* `sscanf` with a single integer directive is the function `sscanf1`.
-/

namespace paramkit

/-! ## Constants -/

/-- The macro `PARAM_UNINITIALIZED`, the `int` constant `-1`. -/
def PARAM_UNINITIALIZED : Int := -1

/-- Conversion of an integer to `uint64_t`. -/
def toUInt64 (i : Int) : Nat := (i % (2 : Int) ^ 64).toNat

/-- Conversion of an integer to a 32-bit object (`int`, `DWORD`), read back
as an unsigned number. -/
def toUInt32 (i : Int) : Nat := (i % (2 : Int) ^ 32).toNat

/-! ## `sscanf` with one integer directive -/

/-- The C `isspace` test of the default locale. -/
def isSpace (c : Char) : Bool :=
  " \t\n\x0b\x0c\r".toList.contains c

/-- Value of a character as a digit of the given base, if it is one. -/
def digitVal (base : Nat) (c : Char) : Option Nat :=
  let v : Option Nat :=
    if '0' ≤ c ∧ c ≤ '9' then some (c.toNat - '0'.toNat)
    else if 'a' ≤ c ∧ c ≤ 'f' then some (c.toNat - 'a'.toNat + 10)
    else if 'A' ≤ c ∧ c ≤ 'F' then some (c.toNat - 'A'.toNat + 10)
    else none
  match v with
  | some d => if d < base then some d else none
  | none => none

/-- White space in front of a conversion is skipped. -/
def skipSpace : List Char → List Char
  | [] => []
  | c :: cs => if isSpace c then skipSpace cs else c :: cs

/-- Accumulate the longest run of digits at the head of the input.  The
result is the accumulated number and how many digits were consumed. -/
def scanDigits (base : Nat) : List Char → Nat → Nat → Nat × Nat
  | [], acc, cnt => (acc, cnt)
  | c :: cs, acc, cnt =>
    match digitVal base c with
    | some d => scanDigits base cs (acc * base + d) (cnt + 1)
    | none => (acc, cnt)

/-- Outcome of a `sscanf` call with one integer directive: an input failure
(the call returns `EOF`), a matching failure (it returns `0`) or one
assignment of the converted integer (it returns `1`). -/
inductive Scan where
  | inputFailure
  | matchFailure
  | assigned (n : Int)
deriving DecidableEq, Repr

/-- The number `sscanf` returns. -/
def Scan.ret : Scan → Int
  | .inputFailure => -1
  | .matchFailure => 0
  | .assigned _ => 1

/-- Split an optional sign off the input: `true` for a minus sign. -/
def scanSign : List Char → Bool × List Char
  | '-' :: cs => (true, cs)
  | '+' :: cs => (false, cs)
  | cs => (false, cs)

/-- Split an optional `0x` or `0X` off the input of a hexadecimal
conversion. -/
def scanHexPrefix : List Char → List Char
  | '0' :: 'x' :: cs => cs
  | '0' :: 'X' :: cs => cs
  | cs => cs

/-- One integer directive (`%d` is base 10, `%llX` is base 16) applied to a
string: white space is skipped, the end of the string there is an input
failure; then an optional sign, for base 16 an optional `0x`, and a
non-empty run of digits, whose absence is a matching failure.  The result
is the mathematical integer read; the caller stores it at the width of the
directive.  A number the object cannot hold is stored reduced modulo the
width of the object; for a magnitude of `2 ^ 63` or more C libraries differ
(some saturate before they store), and no statement below is about such a
token. -/
def sscanf1 (base : Nat) (arg : String) : Scan :=
  match skipSpace arg.toList with
  | [] => .inputFailure
  | c :: cs =>
    let (neg, rest) := scanSign (c :: cs)
    let body := if base = 16 then scanHexPrefix rest else rest
    let (n, cnt) := scanDigits base body 0 0
    if cnt = 0 then .matchFailure
    else .assigned (if neg then -(n : Int) else (n : Int))

/-- The directive `%#llX`: `#` is not part of a `scanf` conversion
specification, the directive is invalid, nothing is converted and nothing
is assigned. -/
def sscanfInvalid (_arg : String) : Scan := .matchFailure

/-- The value of a `uint64_t` variable `val` after `sscanf (arg, "%llX", &val)`. -/
def storeU64 (old : Nat) : Scan → Nat
  | .assigned n => toUInt64 n
  | _ => old

/-- The value of a 64-bit variable `val` after `sscanf (arg, "%d", &val)`:
the directive stores an `int`, four bytes, which on the little-endian
targets of this header are the low-order half of `val`; the high-order
half keeps what it held. -/
def storeIntInU64 (old : Nat) : Scan → Nat
  | .assigned n => (old / 2 ^ 32) * 2 ^ 32 + toUInt32 n
  | _ => old

/-- The value of a `DWORD` variable `val` after `sscanf (arg, "%d", &val)`. -/
def storeU32 (old : Nat) : Scan → Nat
  | .assigned n => toUInt32 n
  | _ => old

/-! ## Rendering of unsigned numbers by a stream -/

/-- The digit character of a stream (`std::dec`, `std::hex` without
`uppercase`). -/
def digitChar (d : Nat) : Char :=
  if d < 10 then Char.ofNat ('0'.toNat + d) else Char.ofNat ('a'.toNat + (d - 10))

/-- Digits of `n` in front of `acc`, most significant first. -/
def toDigitsAux (base : Nat) : Nat → Nat → List Char → List Char
  | 0, _, acc => acc
  | fuel + 1, n, acc =>
    if n / base = 0 then digitChar (n % base) :: acc
    else toDigitsAux base fuel (n / base) (digitChar (n % base) :: acc)

/-- The text `stream << value` produces for an unsigned integer in the
given base. -/
def streamUnsigned (base : Nat) (n : Nat) : String :=
  String.mk (toDigitsAux base (n + 1) n [])

/-! ## The parameter classes -/

/-- The data members of the base class `Param`. -/
structure Param where
  argStr : String
  info : String
  isRequired : Bool
  requiredParam : Bool
deriving DecidableEq, Repr

/-- The constructor `Param::Param`; `info` is default-constructed. -/
def Param.new (argStr : String) (isRequired : Bool) : Param :=
  { argStr := argStr, info := "", isRequired := isRequired, requiredParam := false }

/-- The class `IntParam`. -/
structure IntParam extends Param where
  isHex : Bool
  value : Nat
deriving DecidableEq, Repr

/-- The constructor `IntParam::IntParam`. -/
def IntParam.new (argStr : String) (isRequired : Bool) (isHex : Bool) : IntParam :=
  { toParam := { Param.new argStr isRequired with requiredParam := true },
    isHex := isHex,
    value := toUInt64 PARAM_UNINITIALIZED }

/-- The method `IntParam::valToString`. -/
def IntParam.valToString (p : IntParam) : String :=
  if p.isHex then streamUnsigned 16 p.value else streamUnsigned 10 p.value

/-- The method `IntParam::type`. -/
def IntParam.type (p : IntParam) : String :=
  if p.isHex then "integer: hex" else "integer: dec"

/-- The method `IntParam::isSet`: the macro is converted to `uint64_t` for
the comparison. -/
def IntParam.isSet (p : IntParam) : Bool :=
  p.value != toUInt64 PARAM_UNINITIALIZED

/-- The method `IntParam::parse`: the returned flag and the object after
the call. -/
def IntParam.parse (p : IntParam) (arg : Option String) : Bool × IntParam :=
  match arg with
  | none => (false, p)
  | some a =>
    let val : Nat := 0
    if p.isHex then
      let first := sscanf1 16 a
      let val := storeU64 val first
      let val := if first.ret = 0 then storeU64 val (sscanfInvalid a) else val
      (true, { p with value := val })
    else
      let val := storeIntInU64 val (sscanf1 10 a)
      (true, { p with value := val })

/-- The class `StringParam`. -/
structure StringParam extends Param where
  value : String
deriving DecidableEq, Repr

/-- The constructor `StringParam::StringParam`. -/
def StringParam.new (argStr : String) (isRequired : Bool) : StringParam :=
  { toParam := { Param.new argStr isRequired with requiredParam := true },
    value := "" }

/-- The method `StringParam::valToString`. -/
def StringParam.valToString (p : StringParam) : String :=
  "\"" ++ p.value ++ "\""

/-- The method `StringParam::type`. -/
def StringParam.type (_p : StringParam) : String := "string"

/-- The method `StringParam::isSet`. -/
def StringParam.isSet (p : StringParam) : Bool :=
  decide (p.value.length > 0)

/-- The method `StringParam::parse`. -/
def StringParam.parse (p : StringParam) (arg : Option String) : Bool × StringParam :=
  match arg with
  | none => (false, p)
  | some a => (true, { p with value := a })

/-- The array behind `value.c_str()`, read at offset `i`: the characters of
the text, the terminator, and past it whatever the memory holds there
(`beyond`). -/
def c_str (value : String) (beyond : Nat → Char) (i : Nat) : Char :=
  if i < value.length then value.toList.getD i '\x00'
  else if i = value.length then '\x00'
  else beyond (i - (value.length + 1))

/-- The stores of `memcpy (buf, src, n)`: offset into `buf` and byte. -/
def memcpy (src : Nat → Char) (n : Nat) : List (Nat × Char) :=
  (List.range n).map fun i => (i, src i)

/-- What a call of `copyToCStr` does: its stores into the memory at `buf`,
in program order, and the number it returns. -/
structure CopyOut where
  writes : List (Nat × Char)
  ret : Nat
deriving DecidableEq, Repr

/-- The method `StringParam::copyToCStr`. -/
def StringParam.copyToCStr (p : StringParam) (beyond : Nat → Char) (buf_max : Nat) : CopyOut :=
  let len := p.value.length + 1
  let len := if len > buf_max then buf_max else len
  { writes := memcpy (c_str p.value beyond) buf_max ++ [(len, '\x00')],
    ret := len }

/-- The memory at `buf` after a sequence of stores. -/
def applyWrites (buf : Nat → Char) : List (Nat × Char) → Nat → Char
  | [], i => buf i
  | (j, c) :: ws, i => applyWrites (fun k => if k = j then c else buf k) ws i

/-- The class `BoolParam`. -/
structure BoolParam extends Param where
  value : Bool
deriving DecidableEq, Repr

/-- The constructor `BoolParam::BoolParam`. -/
def BoolParam.new (argStr : String) (isRequired : Bool) : BoolParam :=
  { toParam := { Param.new argStr isRequired with requiredParam := false },
    value := false }

/-- The method `BoolParam::type`. -/
def BoolParam.type (_p : BoolParam) : String := "bool"

/-- The method `BoolParam::valToString`. -/
def BoolParam.valToString (p : BoolParam) : String :=
  if p.value then "true" else "false"

/-- The method `BoolParam::isSet`. -/
def BoolParam.isSet (p : BoolParam) : Bool := p.value

/-- The method `BoolParam::parse`. -/
def BoolParam.parse (p : BoolParam) (arg : Option String) : Bool × BoolParam :=
  match arg with
  | none => (true, { p with value := true })
  | some a =>
    let val : Nat := 0
    let val := storeU32 val (sscanf1 10 a)
    if val ≠ 0 then (true, { p with value := true })
    else (true, { p with value := false })

/-- The object a `Param *` points to: one of the three concrete classes. -/
inductive ParamObj where
  | int (p : IntParam)
  | string (p : StringParam)
  | bool (p : BoolParam)
deriving DecidableEq, Repr

/-- The base-class part of an object. -/
def ParamObj.base : ParamObj → Param
  | .int p => p.toParam
  | .string p => p.toParam
  | .bool p => p.toParam

/-- The member `argStr` read through a `Param *`. -/
def ParamObj.argStr (p : ParamObj) : String := p.base.argStr

/-- The member `info` read through a `Param *`. -/
def ParamObj.info (p : ParamObj) : String := p.base.info

/-- The member `isRequired` read through a `Param *`. -/
def ParamObj.isRequired (p : ParamObj) : Bool := p.base.isRequired

/-- The assignment `p->info = info` through a `Param *`. -/
def ParamObj.setInfo (info : String) : ParamObj → ParamObj
  | .int p => .int { p with info := info }
  | .string p => .string { p with info := info }
  | .bool p => .bool { p with info := info }

/-- The virtual call `p->isSet ()`. -/
def ParamObj.isSet : ParamObj → Bool
  | .int p => p.isSet
  | .string p => p.isSet
  | .bool p => p.isSet

/-- The virtual call `p->valToString ()`. -/
def ParamObj.valToString : ParamObj → String
  | .int p => p.valToString
  | .string p => p.valToString
  | .bool p => p.valToString

/-- The virtual call `p->type ()`. -/
def ParamObj.type : ParamObj → String
  | .int p => p.type
  | .string p => p.type
  | .bool p => p.type

/-- The virtual call `p->parse (arg)`. -/
def ParamObj.parse (arg : Option String) : ParamObj → Bool × ParamObj
  | .int p => ((p.parse arg).1, .int (p.parse arg).2)
  | .string p => ((p.parse arg).1, .string (p.parse arg).2)
  | .bool p => ((p.parse arg).1, .bool (p.parse arg).2)

/-! ## The registry -/

/-- The ordering of the map's keys, `std::less<std::string>`: strings are
compared character by character. -/
def keyLess (a b : String) : Bool := decide (a.toList < b.toList)

/-- The call `myParams.find (key)`: the pointer stored under the key, or
`none` for the end iterator. -/
def mapFind (key : String) : List (String × ParamObj) → Option ParamObj
  | [] => none
  | (k, p) :: rest => if k = key then some p else mapFind key rest

/-- The assignment `myParams[key] = param`: the entry of the key is
replaced, or a new entry is inserted at the key's place in the order. -/
def mapAssign (key : String) (param : ParamObj) :
    List (String × ParamObj) → List (String × ParamObj)
  | [] => [(key, param)]
  | (k, p) :: rest =>
    if keyLess key k then (key, param) :: (k, p) :: rest
    else if k = key then (key, param) :: rest
    else (k, p) :: mapAssign key param rest

/-- A store through the pointer `find (key)` returns: the object under the
key is changed where it is. -/
def mapUpdate (key : String) (f : ParamObj → ParamObj) :
    List (String × ParamObj) → List (String × ParamObj)
  | [] => []
  | (k, p) :: rest =>
    if k = key then (k, f p) :: rest else (k, p) :: mapUpdate key f rest

/-- The class `Params`: the member `myParams`, as the list of its entries
in iteration order.  `addParam` is the only insertion and it refuses the
null pointer, so every entry holds an object. -/
structure Params where
  myParams : List (String × ParamObj)
deriving DecidableEq, Repr

/-- The constructor `Params::Params` is declared in the header and defined
elsewhere; the member map is default-constructed, that is, empty. -/
def Params.new : Params := { myParams := [] }

/-- The method `Params::getParam`. -/
def Params.getParam (ps : Params) (str : String) : Option ParamObj :=
  mapFind str ps.myParams

/-- The method `Params::addParam`; `none` is the null pointer. -/
def Params.addParam (ps : Params) (param : Option ParamObj) : Params :=
  match param with
  | none => ps
  | some p =>
    let argStr := p.argStr
    { myParams := mapAssign argStr p ps.myParams }

/-- The method `Params::setIntValue`: the returned flag and the registry
after the call. -/
def Params.setIntValue (ps : Params) (str : String) (val : Nat) : Bool × Params :=
  match ps.getParam str with
  | none => (false, ps)
  | some (.int param) =>
    (true, { myParams := mapUpdate str (fun _ => .int { param with value := val }) ps.myParams })
  | some _ => (false, ps)

/-- The method `Params::setInfo`: the returned flag and the registry after
the call. -/
def Params.setInfo (ps : Params) (str : String) (info : String) : Bool × Params :=
  match ps.getParam str with
  | none => (false, ps)
  | some _ => (false, { myParams := mapUpdate str (ParamObj.setInfo info) ps.myParams })

/-- The method `Params::getIntValue`.  The result type is `uint64_t`: the
macro and the literal `false` are converted to it. -/
def Params.getIntValue (ps : Params) (str : String) : Nat :=
  match mapFind str ps.myParams with
  | none => toUInt64 PARAM_UNINITIALIZED
  | some (.int param) => param.value
  | some _ => toUInt64 (false).toNat

/-- The method `Params::isSet`. -/
def Params.isSet (ps : Params) (str : String) : Bool :=
  match mapFind str ps.myParams with
  | none => false
  | some param => param.isSet

/-- The loop of `Params::hasRequiredFilled` from a given iterator
position on. -/
def hasRequiredFilledFrom : List (String × ParamObj) → Bool
  | [] => true
  | (_, param) :: rest =>
    if param.isRequired && !param.isSet then false
    else hasRequiredFilledFrom rest

/-- The method `Params::hasRequiredFilled`. -/
def Params.hasRequiredFilled (ps : Params) : Bool :=
  hasRequiredFilledFrom ps.myParams

/-- The method `Params::releaseParams`: every object is deleted and the
map is cleared. -/
def Params.releaseParams (_ps : Params) : Params := { myParams := [] }

/-- The keys of the registry in iteration order. -/
def Params.keys (ps : Params) : List String := ps.myParams.map Prod.fst

/-- The number of entries, `myParams.size ()`. -/
def Params.size (ps : Params) : Nat := ps.myParams.length

/-! ## Sequences of calls -/

/-- A call of one of the methods of `Params` that change the registry. -/
inductive Call where
  | addParam (param : Option ParamObj)
  | setIntValue (str : String) (val : Nat)
  | setInfo (str : String) (info : String)
  | releaseParams
deriving DecidableEq, Repr

/-- The registry after one call. -/
def Params.call (ps : Params) : Call → Params
  | .addParam param => ps.addParam param
  | .setIntValue str val => (ps.setIntValue str val).2
  | .setInfo str info => (ps.setInfo str info).2
  | .releaseParams => ps.releaseParams

/-- The registry after a sequence of calls, the first call first. -/
def Params.run (ps : Params) : List Call → Params
  | [] => ps
  | c :: cs => (ps.call c).run cs

/-- The call `getParam (str)->parse (arg)` on the object registered under a
name, as a caller that walks an argument vector makes it: the object is
changed where it is. -/
def Params.parseParam (ps : Params) (str : String) (arg : Option String) : Params :=
  { myParams := mapUpdate str (fun p => (p.parse arg).2) ps.myParams }

/-- Every key of the map is the `argStr` of the object stored under it. -/
def Params.keysMatch (ps : Params) : Prop :=
  ∀ e ∈ ps.myParams, e.1 = e.2.argStr

/-- The keys of the map are in strictly increasing order. -/
def Params.keysSorted (ps : Params) : Prop :=
  ps.keys.Pairwise fun a b => keyLess a b = true

/-! ## Numerals, as the specification reads them -/

/-- The place of a character in an alphabet, counted from zero. -/
def place (c : Char) : List Char → Option Nat
  | [] => none
  | d :: ds => if c = d then some 0 else (place c ds).map fun k => k + 1

/-- The value of a decimal digit character: its place in the alphabet of
the decimal digits. -/
def decDigitValue (c : Char) : Option Nat :=
  place c "0123456789".toList

/-- The value of a hexadecimal digit character of either case: its place in
the alphabet of the hexadecimal digits, written with small or with capital
letters. -/
def hexDigitValue (c : Char) : Option Nat :=
  match place c "0123456789abcdef".toList with
  | some v => some v
  | none => place c "0123456789ABCDEF".toList

/-- The integer a digit string represents in positional notation: the first
digit is the most significant. -/
def positional (base : Nat) (digit : Char → Option Nat) : List Char → Nat
  | [] => 0
  | c :: cs => (digit c).getD 0 * base ^ cs.length + positional base digit cs

/-- A non-empty string of digits. -/
def isNumeral (digit : Char → Option Nat) (ds : List Char) : Prop :=
  ds ≠ [] ∧ ∀ c ∈ ds, (digit c).isSome = true

instance (digit : Char → Option Nat) (ds : List Char) : Decidable (isNumeral digit ds) := by
  unfold isNumeral
  infer_instance

/-- A buffer read as a terminated string within its first `cap` bytes: the
characters in front of the first terminator, or `none` when there is no
terminator among those bytes. -/
def readCStr (buf : Nat → Char) : Nat → Nat → Option (List Char)
  | 0, _ => none
  | cap + 1, i =>
    if buf i = '\x00' then some []
    else (readCStr buf cap (i + 1)).map fun cs => buf i :: cs

/-- A token begins with a decimal integer the way `%d` reads one: after
white space, if any, and one sign, if any, comes a decimal digit. -/
def beginsWithDecimal (s : String) : Bool :=
  match s.toList.dropWhile isSpace with
  | [] => false
  | '-' :: rest => (rest.head?.bind decDigitValue).isSome
  | '+' :: rest => (rest.head?.bind decDigitValue).isSome
  | c :: _ => (decDigitValue c).isSome

/-! ## Sample objects -/

/-- A registry with the required decimal integer `mode` and the optional
flag `verbose`, both fresh. -/
def sampleParams : Params :=
  (Params.new.addParam (some (.int (IntParam.new "mode" true false)))).addParam
    (some (.bool (BoolParam.new "verbose" false)))

/-- A registry holding one optional string parameter `name`. -/
def stringOnlyParams : Params :=
  Params.new.addParam (some (.string (StringParam.new "name" false)))

/-- A fresh hexadecimal `IntParam`. -/
def hexParam : IntParam := IntParam.new "addr" false true

/-- A fresh decimal `IntParam`. -/
def decParam : IntParam := IntParam.new "count" false false

/-- A `StringParam` after `parse ("abc")`. -/
def abcParam : StringParam := ((StringParam.new "s" false).parse (some "abc")).2

/-- A `BoolParam` that an earlier bare flag has set to true. -/
def flagParam : BoolParam := ((BoolParam.new "verbose" false).parse none).2

/-- The sample registry after the flag `verbose` alone was parsed. -/
def verboseOnlyParams : Params := sampleParams.parseParam "verbose" none

/-- A decimal `IntParam` holding 7. -/
def sevenParam : IntParam := { decParam with value := 7 }

/-! ## Lemmas on the map operations -/

theorem mapFind_mapAssign_self (key : String) (param : ParamObj)
    (l : List (String × ParamObj)) :
    mapFind key (mapAssign key param l) = some param := by
  induction l with
  | nil => simp [mapAssign, mapFind]
  | cons e rest ih =>
    obtain ⟨k, p⟩ := e
    unfold mapAssign
    by_cases h1 : keyLess key k = true
    · simp [h1, mapFind]
    · by_cases h2 : k = key
      · subst h2
        simp [h1, mapFind]
      · simp [h1, h2, mapFind, ih]

theorem mapFind_mapAssign_other (key m : String) (param : ParamObj)
    (l : List (String × ParamObj)) (hm : m ≠ key) :
    mapFind m (mapAssign key param l) = mapFind m l := by
  have hm2 : ¬ key = m := fun h => hm h.symm
  induction l with
  | nil => simp [mapAssign, mapFind, hm2]
  | cons e rest ih =>
    obtain ⟨k, p⟩ := e
    unfold mapAssign
    by_cases h1 : keyLess key k = true
    · simp [h1, mapFind, hm2]
    · by_cases h2 : k = key
      · subst h2
        simp [h1, mapFind, hm2]
      · simp [h1, h2, mapFind, ih]

theorem mapAssign_mapAssign (key : String) (p1 p2 : ParamObj)
    (l : List (String × ParamObj)) :
    mapAssign key p2 (mapAssign key p1 l) = mapAssign key p2 l := by
  have hirr : keyLess key key = false := by simp [keyLess]
  induction l with
  | nil => simp [mapAssign, hirr]
  | cons e rest ih =>
    obtain ⟨k, p⟩ := e
    by_cases h1 : keyLess key k = true
    · simp [mapAssign, h1, hirr]
    · by_cases h2 : k = key
      · subst h2
        simp [mapAssign, hirr]
      · simp [mapAssign, h1, h2, ih]

theorem mapAssign_keys_of_present (key : String) (p1 p2 : ParamObj)
    (l : List (String × ParamObj)) :
    (mapAssign key p2 (mapAssign key p1 l)).map Prod.fst
      = (mapAssign key p1 l).map Prod.fst := by
  have hirr : keyLess key key = false := by simp [keyLess]
  induction l with
  | nil => simp [mapAssign, hirr]
  | cons e rest ih =>
    obtain ⟨k, p⟩ := e
    by_cases h1 : keyLess key k = true
    · simp [mapAssign, h1, hirr]
    · by_cases h2 : k = key
      · subst h2
        simp [mapAssign, hirr]
      · simp [mapAssign, h1, h2, ih]

theorem mapFind_mapUpdate_self (key : String) (f : ParamObj → ParamObj)
    (l : List (String × ParamObj)) :
    mapFind key (mapUpdate key f l) = (mapFind key l).map f := by
  induction l with
  | nil => simp [mapUpdate, mapFind]
  | cons e rest ih =>
    obtain ⟨k, p⟩ := e
    by_cases h : k = key
    · simp [mapUpdate, mapFind, h]
    · simp [mapUpdate, mapFind, h, ih]

theorem mapFind_mapUpdate_other (key m : String) (f : ParamObj → ParamObj)
    (l : List (String × ParamObj)) (hm : m ≠ key) :
    mapFind m (mapUpdate key f l) = mapFind m l := by
  induction l with
  | nil => simp [mapUpdate, mapFind]
  | cons e rest ih =>
    obtain ⟨k, p⟩ := e
    by_cases h : k = key
    · subst h
      have : ¬ k = m := fun h => hm h.symm
      simp [mapUpdate, mapFind, this]
    · simp [mapUpdate, mapFind, h, ih]

theorem mapUpdate_keys (key : String) (f : ParamObj → ParamObj)
    (l : List (String × ParamObj)) :
    (mapUpdate key f l).map Prod.fst = l.map Prod.fst := by
  induction l with
  | nil => simp [mapUpdate]
  | cons e rest ih =>
    obtain ⟨k, p⟩ := e
    by_cases h : k = key
    · simp [mapUpdate, h]
    · simp [mapUpdate, h, ih]

theorem hasRequiredFilledFrom_iff (l : List (String × ParamObj)) :
    hasRequiredFilledFrom l = true ↔
      ∀ e ∈ l, e.2.isRequired = true → e.2.isSet = true := by
  induction l with
  | nil => simp [hasRequiredFilledFrom]
  | cons e rest ih =>
    obtain ⟨k, p⟩ := e
    unfold hasRequiredFilledFrom
    by_cases hr : p.isRequired = true <;> by_cases hs : p.isSet = true <;>
      simp [hr, hs, ih]

theorem hasRequiredFilledFrom_filter (l : List (String × ParamObj)) :
    hasRequiredFilledFrom l
      = hasRequiredFilledFrom (l.filter fun e => e.2.isRequired) := by
  induction l with
  | nil => rfl
  | cons e rest ih =>
    obtain ⟨k, p⟩ := e
    by_cases hr : p.isRequired = true
    · simp [hasRequiredFilledFrom, hr, ih]
    · simp [hasRequiredFilledFrom, hr, ih]

/-! ## The registry: lookups and setters -/

/-- What `getIntValue` returns in each of its three cases: the sentinel for
an absent name, the stored value for an `IntParam`, and the converted
literal `false`, zero, for a parameter of another class. -/
theorem getIntValue_cases (ps : Params) (str : String) :
    (ps.getParam str = none → ps.getIntValue str = 2 ^ 64 - 1) ∧
    (∀ ip, ps.getParam str = some (.int ip) → ps.getIntValue str = ip.value) ∧
    (∀ sp, ps.getParam str = some (.string sp) → ps.getIntValue str = 0) ∧
    (∀ bp, ps.getParam str = some (.bool bp) → ps.getIntValue str = 0) := by
  unfold Params.getParam Params.getIntValue
  refine ⟨?_, ?_, ?_, ?_⟩
  · intro h
    rw [h]
    decide
  · intro ip h
    rw [h]
  · intro sp h
    rw [h]
    rfl
  · intro bp h
    rw [h]
    rfl

/-- C1: for the name of a registered `StringParam`, `getIntValue` returns 0,
which is not the unset sentinel `2 ^ 64 - 1` the claim announces for a
parameter that is not integer-typed. -/
theorem getIntValue_string_param_is_zero :
    stringOnlyParams.getParam "name" = some (.string (StringParam.new "name" false)) ∧
    stringOnlyParams.getIntValue "name" = 0 ∧
    stringOnlyParams.getIntValue "name" ≠ toUInt64 PARAM_UNINITIALIZED ∧
    toUInt64 PARAM_UNINITIALIZED = 2 ^ 64 - 1 := by
  decide

/-- C2: `setIntValue` returns false and leaves the registry as it was when
the name is absent or bound to a `StringParam` or a `BoolParam`; for an
`IntParam` it returns true and `getIntValue` of the name is then `val`. -/
theorem setIntValue_spec (ps : Params) (str : String) (val : Nat) :
    (ps.getParam str = none → ps.setIntValue str val = (false, ps)) ∧
    (∀ sp, ps.getParam str = some (.string sp) → ps.setIntValue str val = (false, ps)) ∧
    (∀ bp, ps.getParam str = some (.bool bp) → ps.setIntValue str val = (false, ps)) ∧
    (∀ ip, ps.getParam str = some (.int ip) →
      (ps.setIntValue str val).1 = true ∧
      (ps.setIntValue str val).2.getIntValue str = val) := by
  refine ⟨?_, ?_, ?_, ?_⟩
  · intro h
    simp [Params.setIntValue, h]
  · intro sp h
    simp [Params.setIntValue, h]
  · intro bp h
    simp [Params.setIntValue, h]
  · intro ip h
    have hfind : mapFind str ps.myParams = some (.int ip) := h
    simp [Params.setIntValue, h, Params.getIntValue, mapFind_mapUpdate_self, hfind]

/-- Witness of `setIntValue_spec`: on the sample registry, the absent name
`depth`, the flag `verbose` and the integer `mode`. -/
theorem setIntValue_spec_witness :
    sampleParams.setIntValue "depth" 7 = (false, sampleParams) ∧
    sampleParams.setIntValue "verbose" 7 = (false, sampleParams) ∧
    stringOnlyParams.setIntValue "name" 7 = (false, stringOnlyParams) ∧
    (sampleParams.setIntValue "mode" 7).1 = true ∧
    (sampleParams.setIntValue "mode" 7).2.getIntValue "mode" = 7 :=
  ⟨(setIntValue_spec sampleParams "depth" 7).1 (by decide),
   (setIntValue_spec sampleParams "verbose" 7).2.2.1 (BoolParam.new "verbose" false) (by decide),
   (setIntValue_spec stringOnlyParams "name" 7).2.1 (StringParam.new "name" false) (by decide),
   ((setIntValue_spec sampleParams "mode" 7).2.2.2 (IntParam.new "mode" true false) (by decide)).1,
   ((setIntValue_spec sampleParams "mode" 7).2.2.2 (IntParam.new "mode" true false) (by decide)).2⟩

/-- C3: `hasRequiredFilled` is true exactly when every entry of the registry
whose `isRequired` flag is true reports `isSet`; it is true when no entry is
required, and it is computed from the required entries alone. -/
theorem hasRequiredFilled_iff (ps : Params) :
    (ps.hasRequiredFilled = true ↔
      ∀ e ∈ ps.myParams, e.2.isRequired = true → e.2.isSet = true) ∧
    ((∀ e ∈ ps.myParams, e.2.isRequired = false) → ps.hasRequiredFilled = true) ∧
    ps.hasRequiredFilled
      = hasRequiredFilledFrom (ps.myParams.filter fun e => e.2.isRequired) := by
  refine ⟨hasRequiredFilledFrom_iff ps.myParams, ?_, hasRequiredFilledFrom_filter ps.myParams⟩
  intro h
  apply (hasRequiredFilledFrom_iff ps.myParams).2
  intro e he hr
  rw [h e he] at hr
  exact absurd hr (by decide)

/-- Witness of `hasRequiredFilled_iff`: the registry with the one optional
string parameter has no required entry. -/
theorem hasRequiredFilled_iff_witness :
    (∀ e ∈ stringOnlyParams.myParams, e.2.isRequired = false) ∧
    stringOnlyParams.hasRequiredFilled = true :=
  ⟨by decide, (hasRequiredFilled_iff stringOnlyParams).2.1 (by decide)⟩

/-- C4: after `addParam (p1)` and `addParam (p2)` with the same `argStr`, the
registry is the one `addParam (p2)` alone produces, so no operation can tell
that `p1` was ever added: the name looks up `p2`, `isSet` and `getIntValue`
of the name are those of `p2`, the keys are those after `addParam (p1)`
alone, and every other name looks up what it did before.  `addParam` of the
null pointer changes nothing. -/
theorem addParam_same_name (ps : Params) (p1 p2 : ParamObj)
    (hname : p1.argStr = p2.argStr) :
    (ps.addParam (some p1)).addParam (some p2) = ps.addParam (some p2) ∧
    ((ps.addParam (some p1)).addParam (some p2)).getParam p2.argStr = some p2 ∧
    ((ps.addParam (some p1)).addParam (some p2)).isSet p2.argStr = p2.isSet ∧
    ((ps.addParam (some p1)).addParam (some p2)).getIntValue p2.argStr
      = (match p2 with
         | .int ip => ip.value
         | _ => 0) ∧
    ((ps.addParam (some p1)).addParam (some p2)).keys = (ps.addParam (some p1)).keys ∧
    ((ps.addParam (some p1)).addParam (some p2)).size = (ps.addParam (some p1)).size ∧
    (∀ m, m ≠ p2.argStr →
      ((ps.addParam (some p1)).addParam (some p2)).getParam m = (ps.addParam (some p1)).getParam m ∧
      (ps.addParam (some p1)).getParam m = ps.getParam m) ∧
    ps.addParam none = ps := by
  have hfind : mapFind p2.argStr (mapAssign p2.argStr p2 (mapAssign p2.argStr p1 ps.myParams))
      = some p2 := mapFind_mapAssign_self _ _ _
  have hkeys := mapAssign_keys_of_present p2.argStr p1 p2 ps.myParams
  refine ⟨?_, ?_, ?_, ?_, ?_, ?_, ?_, rfl⟩
  · simp [Params.addParam, hname, mapAssign_mapAssign]
  · simpa [Params.addParam, Params.getParam, hname] using hfind
  · simp [Params.addParam, Params.isSet, hname, hfind]
  · simp only [Params.addParam, Params.getIntValue, hname, hfind]
    cases p2 <;> rfl
  · simpa [Params.addParam, Params.keys, hname] using hkeys
  · have := congrArg List.length hkeys
    simpa [Params.addParam, Params.size, hname] using this
  · intro m hm
    constructor
    · simp [Params.addParam, Params.getParam, mapFind_mapAssign_other _ _ _ _ hm]
    · simp [Params.addParam, Params.getParam, hname, mapFind_mapAssign_other _ _ _ _ hm]

/-- Witness of `addParam_same_name`: a hexadecimal `mode` registered over
the decimal `mode` of the sample registry. -/
theorem addParam_same_name_witness :
    (ParamObj.int (IntParam.new "mode" true false)).argStr
      = (ParamObj.int (IntParam.new "mode" false true)).argStr ∧
    ((sampleParams.addParam (some (.int (IntParam.new "mode" true false)))).addParam
      (some (.int (IntParam.new "mode" false true)))).getParam "mode"
      = some (.int (IntParam.new "mode" false true)) :=
  ⟨by decide,
   (addParam_same_name sampleParams (.int (IntParam.new "mode" true false))
      (.int (IntParam.new "mode" false true)) (by decide)).2.1⟩

/-! ## Digits -/

theorem char_le_iff (a c : Char) : a ≤ c ↔ a.toNat ≤ c.toNat := by
  rw [Char.le_def]
  exact Iff.rfl

theorem char_of_range (c : Char) (lo hi : Nat) (h1 : lo ≤ c.toNat) (h2 : c.toNat ≤ hi) :
    ∃ n, lo ≤ n ∧ n ≤ hi ∧ c = Char.ofNat n :=
  ⟨c.toNat, h1, h2, (Char.ofNat_toNat c).symm⟩

theorem place_eq_none (c : Char) (l : List Char) (h : c ∉ l) : place c l = none := by
  induction l with
  | nil => rfl
  | cons d ds ih =>
    have hne : ¬ c = d := fun e => h (e ▸ List.mem_cons_self _ _)
    have hds : c ∉ ds := fun e => h (List.mem_cons_of_mem _ e)
    simp [place, hne, ih hds]

theorem mem_of_place_isSome (c : Char) (l : List Char) (h : (place c l).isSome = true) :
    c ∈ l := by
  by_contra hc
  rw [place_eq_none c l hc] at h
  exact absurd h (by decide)

/-- Every character of the digit alphabets lies in one of the three ranges
the scanner tests. -/
theorem alphabet_ranges :
    ∀ d ∈ "0123456789abcdef".toList ++ "0123456789ABCDEF".toList,
      ('0' ≤ d ∧ d ≤ '9') ∨ ('a' ≤ d ∧ d ≤ 'f') ∨ ('A' ≤ d ∧ d ≤ 'F') := by
  decide

/-- The digit test of the scanner in base 16 agrees with the table. -/
theorem digitVal_hex (c : Char) : digitVal 16 c = hexDigitValue c := by
  by_cases hd : '0' ≤ c ∧ c ≤ '9'
  · obtain ⟨n, h1, h2, rfl⟩ :=
      char_of_range c 48 57 ((char_le_iff _ _).1 hd.1) ((char_le_iff _ _).1 hd.2)
    interval_cases n <;> rfl
  · by_cases hl : 'a' ≤ c ∧ c ≤ 'f'
    · obtain ⟨n, h1, h2, rfl⟩ :=
        char_of_range c 97 102 ((char_le_iff _ _).1 hl.1) ((char_le_iff _ _).1 hl.2)
      interval_cases n <;> rfl
    · by_cases hu : 'A' ≤ c ∧ c ≤ 'F'
      · obtain ⟨n, h1, h2, rfl⟩ :=
          char_of_range c 65 70 ((char_le_iff _ _).1 hu.1) ((char_le_iff _ _).1 hu.2)
        interval_cases n <;> rfl
      · have hnone : digitVal 16 c = none := by simp [digitVal, hd, hl, hu]
        have hout : ∀ l : List Char, (∀ d ∈ l, ('0' ≤ d ∧ d ≤ '9') ∨ ('a' ≤ d ∧ d ≤ 'f') ∨
            ('A' ≤ d ∧ d ≤ 'F')) → c ∉ l := by
          intro l hall hmem
          rcases hall c hmem with h | h | h
          · exact hd h
          · exact hl h
          · exact hu h
        rw [hnone]
        unfold hexDigitValue
        rw [place_eq_none c _ (hout _ fun d hd => alphabet_ranges d (List.mem_append_left _ hd)),
          place_eq_none c _ (hout _ fun d hd => alphabet_ranges d (List.mem_append_right _ hd))]

/-- The digit test of the scanner in base 10 agrees with the table. -/
theorem digitVal_dec (c : Char) : digitVal 10 c = decDigitValue c := by
  by_cases hd : '0' ≤ c ∧ c ≤ '9'
  · obtain ⟨n, h1, h2, rfl⟩ :=
      char_of_range c 48 57 ((char_le_iff _ _).1 hd.1) ((char_le_iff _ _).1 hd.2)
    interval_cases n <;> rfl
  · have hnone : digitVal 10 c = none := by
      unfold digitVal
      simp only [hd, if_false]
      by_cases hl : 'a' ≤ c ∧ c ≤ 'f'
      · simp only [hl, and_self, if_true]
        have : ¬ (c.toNat - 'a'.toNat + 10 < 10) := by omega
        simp [this]
      · by_cases hu : 'A' ≤ c ∧ c ≤ 'F'
        · simp only [hl, hu, and_self, if_true, if_false]
          have : ¬ (c.toNat - 'A'.toNat + 10 < 10) := by omega
          simp [this]
        · simp [hl, hu]
    have hall : ∀ d ∈ "0123456789".toList, '0' ≤ d ∧ d ≤ '9' := by decide
    rw [hnone]
    unfold decDigitValue
    rw [place_eq_none c _ fun hmem => hd (hall c hmem)]

/-- A hexadecimal digit is a character of one of the two alphabets. -/
theorem hexDigit_mem (c : Char) (h : (hexDigitValue c).isSome = true) :
    c ∈ "0123456789abcdef".toList ++ "0123456789ABCDEF".toList := by
  unfold hexDigitValue at h
  cases hlow : place c "0123456789abcdef".toList with
  | some v =>
    exact List.mem_append_left _ (mem_of_place_isSome c _ (by rw [hlow]; rfl))
  | none =>
    rw [hlow] at h
    exact List.mem_append_right _ (mem_of_place_isSome c _ h)

/-- A decimal digit is a hexadecimal digit. -/
theorem hexDigit_of_decDigit (c : Char) (h : (decDigitValue c).isSome = true) :
    (hexDigitValue c).isSome = true := by
  have hall : ∀ d ∈ "0123456789".toList, (hexDigitValue d).isSome = true := by decide
  exact hall c (mem_of_place_isSome c _ h)

/-- A digit is neither white space, nor a sign, nor the letter of the
hexadecimal prefix. -/
theorem hexDigit_plain (c : Char) (h : (hexDigitValue c).isSome = true) :
    isSpace c = false ∧ c ≠ '-' ∧ c ≠ '+' ∧ c ≠ 'x' ∧ c ≠ 'X' := by
  have key : ∀ d ∈ "0123456789abcdef".toList ++ "0123456789ABCDEF".toList,
      isSpace d = false ∧ d ≠ '-' ∧ d ≠ '+' ∧ d ≠ 'x' ∧ d ≠ 'X' := by decide
  exact key c (hexDigit_mem c h)

theorem positional_congr (base : Nat) (f g : Char → Option Nat) (hfg : ∀ c, f c = g c)
    (ds : List Char) : positional base f ds = positional base g ds := by
  induction ds with
  | nil => rfl
  | cons c cs ih => simp [positional, hfg, ih]

theorem positional_append_singleton (base : Nat) (f : Char → Option Nat)
    (ds : List Char) (c : Char) :
    positional base f (ds ++ [c]) = positional base f ds * base + (f c).getD 0 := by
  induction ds with
  | nil => simp [positional]
  | cons d ds ih =>
    show (f d).getD 0 * base ^ (ds ++ [c]).length + positional base f (ds ++ [c])
      = ((f d).getD 0 * base ^ ds.length + positional base f ds) * base + (f c).getD 0
    rw [ih, List.length_append, List.length_singleton, pow_succ]
    ring

/-- On a run of digits the scanner consumes every character and
accumulates the positional value. -/
theorem scanDigits_run (base : Nat) (ds : List Char)
    (h : ∀ c ∈ ds, (digitVal base c).isSome = true) (acc cnt : Nat) :
    scanDigits base ds acc cnt
      = (acc * base ^ ds.length + positional base (digitVal base) ds, cnt + ds.length) := by
  induction ds generalizing acc cnt with
  | nil => simp [scanDigits, positional]
  | cons c cs ih =>
    have hc := h c (List.mem_cons_self _ _)
    obtain ⟨d, hd⟩ := Option.isSome_iff_exists.1 hc
    have hcs : ∀ x ∈ cs, (digitVal base x).isSome = true :=
      fun x hx => h x (List.mem_cons_of_mem _ hx)
    simp only [scanDigits, hd, ih hcs, positional, Option.getD_some, List.length_cons,
      pow_succ, Prod.mk.injEq]
    constructor
    · ring
    · omega

/-! ## Scanning a numeral -/

theorem skipSpace_cons_of_not_space (c : Char) (cs : List Char) (h : isSpace c = false) :
    skipSpace (c :: cs) = c :: cs := by
  simp [skipSpace, h]

theorem scanSign_of_unsigned (c : Char) (cs : List Char) (hm : c ≠ '-') (hp : c ≠ '+') :
    scanSign (c :: cs) = (false, c :: cs) := by
  unfold scanSign
  split
  · rename_i heq
    exact absurd (List.cons.inj heq).1 hm
  · rename_i heq
    exact absurd (List.cons.inj heq).1 hp
  · rfl

theorem scanHexPrefix_of_digits (c : Char) (cs : List Char)
    (h : ∀ x ∈ c :: cs, (hexDigitValue x).isSome = true) :
    scanHexPrefix (c :: cs) = c :: cs := by
  unfold scanHexPrefix
  split
  · rename_i heq
    rw [heq] at h
    exact absurd (h 'x' (by simp)) (by decide)
  · rename_i heq
    rw [heq] at h
    exact absurd (h 'X' (by simp)) (by decide)
  · rfl

/-- The hexadecimal directive on a numeral with or without the `0x`. -/
theorem sscanf1_hex_numeral (s : String) (pre ds : List Char)
    (hs : s.toList = pre ++ ds)
    (hpre : pre = [] ∨ pre = ['0', 'x'] ∨ pre = ['0', 'X'])
    (hnum : isNumeral hexDigitValue ds) :
    sscanf1 16 s = .assigned (positional 16 hexDigitValue ds : Nat) := by
  obtain ⟨hne, hdig⟩ := hnum
  obtain ⟨c, cs, rfl⟩ := List.exists_cons_of_ne_nil hne
  have hc := hexDigit_plain c (hdig c (List.mem_cons_self _ _))
  have hrun : ∀ x ∈ c :: cs, (digitVal 16 x).isSome = true := by
    intro x hx
    rw [digitVal_hex]
    exact hdig x hx
  have hscan := scanDigits_run 16 (c :: cs) hrun 0 0
  rw [positional_congr 16 _ _ digitVal_hex] at hscan
  unfold sscanf1
  rcases hpre with rfl | rfl | rfl
  · rw [hs]
    simp only [List.nil_append, skipSpace_cons_of_not_space c cs hc.1,
      scanSign_of_unsigned c cs hc.2.1 hc.2.2.1]
    simp [scanHexPrefix_of_digits c cs hdig, hscan]
  · rw [hs]
    have h0 : skipSpace ('0' :: 'x' :: c :: cs) = '0' :: 'x' :: c :: cs := by
      simp [skipSpace, isSpace]
    simp only [List.cons_append, List.nil_append, h0]
    simp [scanSign, scanHexPrefix, hscan]
  · rw [hs]
    have h0 : skipSpace ('0' :: 'X' :: c :: cs) = '0' :: 'X' :: c :: cs := by
      simp [skipSpace, isSpace]
    simp only [List.cons_append, List.nil_append, h0]
    simp [scanSign, scanHexPrefix, hscan]

/-- The decimal directive on an optionally signed numeral. -/
theorem sscanf1_dec_numeral (s : String) (sign ds : List Char)
    (hs : s.toList = sign ++ ds)
    (hsign : sign = [] ∨ sign = ['+'] ∨ sign = ['-'])
    (hnum : isNumeral decDigitValue ds) :
    sscanf1 10 s = .assigned
      (if sign = ['-'] then -(positional 10 decDigitValue ds : Int)
       else (positional 10 decDigitValue ds : Int)) := by
  obtain ⟨hne, hdig⟩ := hnum
  obtain ⟨c, cs, rfl⟩ := List.exists_cons_of_ne_nil hne
  have hc := hexDigit_plain c (hexDigit_of_decDigit c (hdig c (List.mem_cons_self _ _)))
  have hrun : ∀ x ∈ c :: cs, (digitVal 10 x).isSome = true := by
    intro x hx
    rw [digitVal_dec]
    exact hdig x hx
  have hscan := scanDigits_run 10 (c :: cs) hrun 0 0
  rw [positional_congr 10 _ _ digitVal_dec] at hscan
  unfold sscanf1
  rcases hsign with rfl | rfl | rfl
  · rw [hs]
    simp only [List.nil_append, skipSpace_cons_of_not_space c cs hc.1,
      scanSign_of_unsigned c cs hc.2.1 hc.2.2.1]
    simp [hscan]
  · rw [hs]
    have h0 : skipSpace ('+' :: c :: cs) = '+' :: c :: cs := by
      simp [skipSpace, isSpace]
    simp only [List.cons_append, List.nil_append, h0]
    simp [scanSign, hscan]
  · rw [hs]
    have h0 : skipSpace ('-' :: c :: cs) = '-' :: c :: cs := by
      simp [skipSpace, isSpace]
    simp only [List.cons_append, List.nil_append, h0]
    simp [scanSign, hscan]

/-! ## Rendering -/

theorem hexDigitValue_digitChar (d : Nat) (h : d < 16) :
    hexDigitValue (digitChar d) = some d := by
  interval_cases d <;> rfl

theorem toDigitsAux_append (base fuel n : Nat) (acc : List Char) :
    toDigitsAux base fuel n acc = toDigitsAux base fuel n [] ++ acc := by
  induction fuel generalizing n acc with
  | zero => simp [toDigitsAux]
  | succ fuel ih =>
    unfold toDigitsAux
    by_cases h : n / base = 0
    · simp [h]
    · simp only [h, if_false]
      rw [ih (n / base) (digitChar (n % base) :: acc), ih (n / base) [digitChar (n % base)]]
      simp

/-- With enough fuel the rendering in base 16 is a numeral whose positional
value is the number rendered. -/
theorem toDigitsAux_hex (fuel n : Nat) (h : n < fuel) :
    isNumeral hexDigitValue (toDigitsAux 16 fuel n []) ∧
    positional 16 hexDigitValue (toDigitsAux 16 fuel n []) = n := by
  induction fuel generalizing n with
  | zero => omega
  | succ fuel ih =>
    have hmod : n % 16 < 16 := Nat.mod_lt _ (by decide)
    unfold toDigitsAux
    by_cases hq : n / 16 = 0
    · have hn : n % 16 = n := by omega
      simp only [hq, if_true]
      refine ⟨⟨by simp, ?_⟩, ?_⟩
      · intro c hc
        simp only [List.mem_singleton] at hc
        rw [hc, hexDigitValue_digitChar _ hmod]
        rfl
      · rw [hn] at hmod ⊢
        simp [positional, hexDigitValue_digitChar _ hmod]
    · simp only [hq, if_false]
      rw [toDigitsAux_append]
      obtain ⟨⟨hne, hdig⟩, hval⟩ := ih (n / 16) (by omega)
      refine ⟨⟨by simp, ?_⟩, ?_⟩
      · intro c hc
        rcases List.mem_append.1 hc with hc | hc
        · exact hdig c hc
        · simp only [List.mem_singleton] at hc
          rw [hc, hexDigitValue_digitChar _ hmod]
          rfl
      · rw [positional_append_singleton, hval, hexDigitValue_digitChar _ hmod]
        simp only [Option.getD_some]
        omega

theorem toUInt64_of_lt (n : Nat) (h : n < 2 ^ 64) : toUInt64 (n : Int) = n := by
  unfold toUInt64
  have : ((n : Int) % (2 : Int) ^ 64) = (n : Int) := Int.emod_eq_of_lt (by omega) (by omega)
  rw [this]
  simp

/-! ## `IntParam` -/

/-- C5: on a decimal `IntParam` the token `4294967296`, a decimal string
whose value fits 64 bits, parses to the value 0 and not to 4294967296, and
`valToString` then gives `0`: the directive `%d` stores a 32-bit `int` into
the 64-bit `val`. -/
theorem IntParam.parse_dec_two_pow_32 :
    isNumeral decDigitValue "4294967296".toList ∧
    positional 10 decDigitValue "4294967296".toList = 4294967296 ∧
    (4294967296 : Nat) < 2 ^ 64 ∧
    decParam.isHex = false ∧
    (decParam.parse (some "4294967296")).1 = true ∧
    (decParam.parse (some "4294967296")).2.value = 0 ∧
    (decParam.parse (some "4294967296")).2.valToString = "0" := by
  decide

/-- The value a decimal `IntParam` holds after `parse` of a present token
is always below `2 ^ 32`. -/
theorem IntParam.parse_dec_lt (p : IntParam) (h : p.isHex = false) (s : String) :
    (p.parse (some s)).2.value < 2 ^ 32 := by
  have hlt : ∀ n : Int, toUInt32 n < 2 ^ 32 := by
    intro n
    unfold toUInt32
    have h1 : n % (2 : Int) ^ 32 < (2 : Int) ^ 32 := Int.emod_lt_of_pos _ (by norm_num)
    have h2 : 0 ≤ n % (2 : Int) ^ 32 := Int.emod_nonneg _ (by norm_num)
    omega
  simp only [IntParam.parse, h]
  cases hsc : sscanf1 10 s with
  | inputFailure => simp [storeIntInU64]
  | matchFailure => simp [storeIntInU64]
  | assigned n => simpa [storeIntInU64] using hlt n

/-- C6: on a hexadecimal `IntParam`, a token made of an optional `0x` or
`0X` and a non-empty run of hexadecimal digits of either case whose
positional value fits 64 bits parses to that value, with result true;
`valToString` is then a run of hexadecimal digits with the same positional
value, and parsing it again gives the same value. -/
theorem IntParam.parse_hex_numeral (p : IntParam) (s : String) (pre ds : List Char)
    (hhex : p.isHex = true)
    (hs : s.toList = pre ++ ds)
    (hpre : pre = [] ∨ pre = ['0', 'x'] ∨ pre = ['0', 'X'])
    (hnum : isNumeral hexDigitValue ds)
    (hfit : positional 16 hexDigitValue ds < 2 ^ 64) :
    (p.parse (some s)).1 = true ∧
    (p.parse (some s)).2.value = positional 16 hexDigitValue ds ∧
    isNumeral hexDigitValue (p.parse (some s)).2.valToString.toList ∧
    positional 16 hexDigitValue (p.parse (some s)).2.valToString.toList
      = positional 16 hexDigitValue ds ∧
    ((p.parse (some s)).2.parse (some (p.parse (some s)).2.valToString)).2.value
      = positional 16 hexDigitValue ds := by
  have hparse : ∀ (q : IntParam) (t : String) (us vs : List Char), q.isHex = true →
      t.toList = us ++ vs → (us = [] ∨ us = ['0', 'x'] ∨ us = ['0', 'X']) →
      isNumeral hexDigitValue vs → positional 16 hexDigitValue vs < 2 ^ 64 →
      q.parse (some t) = (true, { q with value := positional 16 hexDigitValue vs }) := by
    intro q t us vs hq ht hus hvs hlt
    simp [IntParam.parse, hq, sscanf1_hex_numeral t us vs ht hus hvs, storeU64, Scan.ret,
      toUInt64_of_lt _ hlt]
  have h1 := hparse p s pre ds hhex hs hpre hnum hfit
  have hrender := toDigitsAux_hex (positional 16 hexDigitValue ds + 1)
    (positional 16 hexDigitValue ds) (Nat.lt_succ_self _)
  have hstr : (p.parse (some s)).2.valToString
      = streamUnsigned 16 (positional 16 hexDigitValue ds) := by
    rw [h1]
    simp [IntParam.valToString, hhex]
  have hlist : (streamUnsigned 16 (positional 16 hexDigitValue ds)).toList
      = toDigitsAux 16 (positional 16 hexDigitValue ds + 1) (positional 16 hexDigitValue ds) [] :=
    rfl
  refine ⟨?_, ?_, ?_, ?_, ?_⟩
  · rw [h1]
  · rw [h1]
  · rw [hstr, hlist]
    exact hrender.1
  · rw [hstr, hlist]
    exact hrender.2
  · have h2 := hparse (p.parse (some s)).2 (p.parse (some s)).2.valToString []
      (toDigitsAux 16 (positional 16 hexDigitValue ds + 1) (positional 16 hexDigitValue ds) [])
      (by rw [h1]; exact hhex) (by rw [hstr, hlist]; rfl) (Or.inl rfl) hrender.1
      (by rw [hrender.2]; exact hfit)
    rw [h2, hrender.2]

/-- Witness of `IntParam.parse_hex_numeral`: the token `0x1A` on a fresh
hexadecimal parameter. -/
theorem IntParam.parse_hex_numeral_witness :
    (hexParam.parse (some "0x1A")).1 = true ∧
    (hexParam.parse (some "0x1A")).2.value = 26 ∧
    (hexParam.parse (some "0x1A")).2.valToString = "1a" :=
  have h := IntParam.parse_hex_numeral hexParam "0x1A" ['0', 'x'] ['1', 'A']
    (by decide) (by decide) (by decide) (by decide) (by decide)
  ⟨h.1, h.2.1, by decide⟩

/-! ## `StringParam` and `BoolParam` -/

/-- C7: `StringParam::parse` of a present token returns true and stores the
token as it is, whatever the value was; `valToString` is then the token
between two double-quote characters, two characters longer than the
token. -/
theorem StringParam.parse_roundtrip (p : StringParam) (t : String) :
    (p.parse (some t)).1 = true ∧
    (p.parse (some t)).2.value = t ∧
    (p.parse (some t)).2.valToString = "\"" ++ t ++ "\"" ∧
    (p.parse (some t)).2.valToString.toList = '\x22' :: (t.toList ++ ['\x22']) ∧
    (p.parse (some t)).2.valToString.length = t.length + 2 := by
  refine ⟨rfl, rfl, rfl, ?_, ?_⟩
  · simp [StringParam.parse, StringParam.valToString]
  · have hq : ("\"" : String).length = 1 := rfl
    show ("\"" ++ t ++ "\"").length = t.length + 2
    rw [String.length_append, String.length_append, hq]
    omega

theorem toUInt32_eq_zero_iff (n : Int) (h1 : -(2 : Int) ^ 32 < n) (h2 : n < (2 : Int) ^ 32) :
    toUInt32 n = 0 ↔ n = 0 := by
  unfold toUInt32
  constructor
  · intro h
    have h3 : 0 ≤ n % (2 : Int) ^ 32 := Int.emod_nonneg _ (by norm_num)
    have h4 : n % (2 : Int) ^ 32 = 0 := by omega
    have h5 := Int.emod_add_ediv n ((2 : Int) ^ 32)
    rw [h4] at h5
    omega
  · rintro rfl
    rfl

/-- C8, the claim at the token `4294967296`: the token is a decimal integer
that is not zero, and `parse` sets the value to false. -/
theorem BoolParam.parse_two_pow_32 :
    ¬ (isNumeral decDigitValue "4294967296".toList →
        (((BoolParam.new "verbose" false).parse (some "4294967296")).2.value = true ↔
          positional 10 decDigitValue "4294967296".toList ≠ 0)) := by
  decide

/-- C8, amended: `BoolParam::parse` always returns true and changes the
value only; with no token the value becomes true; with a token that is an
optionally signed decimal numeral of magnitude below `2 ^ 32` the value
becomes true exactly when the number is not zero; `isSet` afterwards is the
value. -/
theorem BoolParam.parse_spec (p : BoolParam) :
    p.parse none = (true, { p with value := true }) ∧
    (∀ a : Option String, (p.parse a).1 = true ∧ (p.parse a).2.isSet = (p.parse a).2.value) ∧
    (∀ (s : String) (sign ds : List Char), s.toList = sign ++ ds →
      (sign = [] ∨ sign = ['+'] ∨ sign = ['-']) →
      isNumeral decDigitValue ds →
      positional 10 decDigitValue ds < 2 ^ 32 →
      p.parse (some s)
        = (true, { p with value := decide (positional 10 decDigitValue ds ≠ 0) })) := by
  refine ⟨rfl, ?_, ?_⟩
  · intro a
    cases a with
    | none => exact ⟨rfl, rfl⟩
    | some s =>
      unfold BoolParam.parse
      simp only
      split <;> exact ⟨rfl, rfl⟩
  · intro s sign ds hs hsign hnum hlt
    have hscan := sscanf1_dec_numeral s sign ds hs hsign hnum
    have hz : ∀ n : Int, (-(2 : Int) ^ 32 < n) → n < (2 : Int) ^ 32 →
        (toUInt32 n = 0 ↔ n = 0) := toUInt32_eq_zero_iff
    unfold BoolParam.parse
    simp only [hscan, storeU32]
    by_cases hneg : sign = ['-']
    · simp only [hneg, if_true]
      have := hz (-(positional 10 decDigitValue ds : Int)) (by omega) (by omega)
      by_cases hv : positional 10 decDigitValue ds = 0
      · simp [hv, show toUInt32 0 = 0 from rfl]
      · have h0 : toUInt32 (-(positional 10 decDigitValue ds : Int)) ≠ 0 :=
          fun h => hv (by have := this.1 h; omega)
        simp [h0, hv]
    · simp only [hneg, if_false]
      have := hz (positional 10 decDigitValue ds : Int) (by omega) (by omega)
      by_cases hv : positional 10 decDigitValue ds = 0
      · simp [hv, show toUInt32 0 = 0 from rfl]
      · have h0 : toUInt32 (positional 10 decDigitValue ds : Int) ≠ 0 :=
          fun h => hv (by have := this.1 h; omega)
        simp [h0, hv]

/-- Witness of `BoolParam.parse_spec`: the tokens `0`, `5` and `-3` on a
parameter an earlier bare flag has set. -/
theorem BoolParam.parse_spec_witness :
    (flagParam.parse (some "0")).2.value = false ∧
    (flagParam.parse (some "5")).2.value = true ∧
    (flagParam.parse (some "-3")).2.value = true :=
  ⟨congrArg (fun r => r.2.value)
      ((BoolParam.parse_spec flagParam).2.2 "0" [] ['0'] (by decide) (by decide) (by decide)
        (by decide)),
   congrArg (fun r => r.2.value)
      ((BoolParam.parse_spec flagParam).2.2 "5" [] ['5'] (by decide) (by decide) (by decide)
        (by decide)),
   congrArg (fun r => r.2.value)
      ((BoolParam.parse_spec flagParam).2.2 "-3" ['-'] ['3'] (by decide) (by decide) (by decide)
        (by decide))⟩

/-! ## `StringParam::copyToCStr` -/

/-- The stores of `copyToCStr`: `memcpy` writes the offsets below `buf_max`,
and the last store puts the terminator at offset `min (n + 1) buf_max`, `n`
the length of the text. -/
theorem copyToCStr_writes (p : StringParam) (beyond : Nat → Char) (buf_max : Nat) :
    (p.copyToCStr beyond buf_max).writes
      = memcpy (c_str p.value beyond) buf_max
          ++ [(min (p.value.length + 1) buf_max, '\x00')] ∧
    (∀ w ∈ memcpy (c_str p.value beyond) buf_max, w.1 < buf_max) := by
  constructor
  · unfold StringParam.copyToCStr
    simp only [List.append_cancel_left_eq, List.cons.injEq, Prod.mk.injEq, and_true]
    split <;> omega
  · intro w hw
    unfold memcpy at hw
    simp only [List.mem_map, List.mem_range] at hw
    obtain ⟨i, hi, rfl⟩ := hw
    exact hi

/-- The number `copyToCStr` returns. -/
theorem copyToCStr_ret (p : StringParam) (beyond : Nat → Char) (buf_max : Nat)
    (h : 1 ≤ buf_max) :
    (p.copyToCStr beyond buf_max).ret = min p.value.length (buf_max - 1) + 1 := by
  unfold StringParam.copyToCStr
  simp only
  split <;> omega

/-- C9: with the text `abc` and a capacity of 2, `copyToCStr` stores the
terminator at offset 2, which is the capacity and not `min (3, 2 - 1) = 1`:
not every store is to an offset below the capacity. -/
theorem copyToCStr_terminator_at_capacity :
    abcParam.value.length = 3 ∧
    (abcParam.copyToCStr (fun _ => 'z') 2).writes = [(0, 'a'), (1, 'b'), (2, '\x00')] ∧
    ¬ (∀ w ∈ (abcParam.copyToCStr (fun _ => 'z') 2).writes, w.1 < 2) ∧
    (abcParam.copyToCStr (fun _ => 'z') 2).writes.getLast? ≠ some (min 3 (2 - 1), '\x00') := by
  decide

/-- C10: with the text `abc` and a capacity of 2, `copyToCStr` returns
`min (3, 2 - 1) + 1 = 2`, and whatever the buffer held before, its first two
bytes are then `a` and `b`: there is no terminator among them, and they do
not read as the one-character text `a`. -/
theorem copyToCStr_truncated_not_terminated (buf : Nat → Char) :
    (abcParam.copyToCStr (fun _ => 'z') 2).ret = min 3 (2 - 1) + 1 ∧
    applyWrites buf (abcParam.copyToCStr (fun _ => 'z') 2).writes 0 = 'a' ∧
    applyWrites buf (abcParam.copyToCStr (fun _ => 'z') 2).writes 1 = 'b' ∧
    readCStr (applyWrites buf (abcParam.copyToCStr (fun _ => 'z') 2).writes) 2 0 = none ∧
    readCStr (applyWrites buf (abcParam.copyToCStr (fun _ => 'z') 2).writes) 2 0
      ≠ some ("abc".toList.take (min 3 (2 - 1))) := by
  have hw : (abcParam.copyToCStr (fun _ => 'z') 2).writes
      = [(0, 'a'), (1, 'b'), (2, '\x00')] := by decide
  have hr : (abcParam.copyToCStr (fun _ => 'z') 2).ret = 2 := by decide
  have h0 : applyWrites buf [(0, 'a'), (1, 'b'), (2, '\x00')] 0 = 'a' := by
    simp [applyWrites]
  have h1 : applyWrites buf [(0, 'a'), (1, 'b'), (2, '\x00')] 1 = 'b' := by
    simp [applyWrites]
  have hn : readCStr (applyWrites buf [(0, 'a'), (1, 'b'), (2, '\x00')]) 2 0 = none := by
    simp [readCStr, h0, h1]
  rw [hw, hr, hn]
  exact ⟨by decide, h0, h1, rfl, by simp⟩

/-! ## `Params::setInfo` and `Params::isSet` -/

/-- The assignment of `info` changes no other member and no part of the
derived class: putting the old text back gives the old object. -/
theorem ParamObj.setInfo_frame (p : ParamObj) (info : String) :
    (p.setInfo info).info = info ∧
    (p.setInfo info).setInfo p.info = p ∧
    (p.setInfo info).argStr = p.argStr ∧
    (p.setInfo info).isRequired = p.isRequired ∧
    (p.setInfo info).isSet = p.isSet ∧
    (p.setInfo info).valToString = p.valToString ∧
    (p.setInfo info).type = p.type := by
  cases p <;> exact ⟨rfl, rfl, rfl, rfl, rfl, rfl, rfl⟩

/-- The object after the assignment of `info`, member by member: every
member of the base class and of the derived class is the old one, except
`info`, which is the new text. -/
theorem ParamObj.setInfo_members (info : String) :
    (∀ ip : IntParam, ParamObj.setInfo info (.int ip)
      = .int { toParam := { argStr := ip.argStr, info := info, isRequired := ip.isRequired,
                            requiredParam := ip.requiredParam },
               isHex := ip.isHex, value := ip.value }) ∧
    (∀ sp : StringParam, ParamObj.setInfo info (.string sp)
      = .string { toParam := { argStr := sp.argStr, info := info, isRequired := sp.isRequired,
                               requiredParam := sp.requiredParam },
                  value := sp.value }) ∧
    (∀ bp : BoolParam, ParamObj.setInfo info (.bool bp)
      = .bool { toParam := { argStr := bp.argStr, info := info, isRequired := bp.isRequired,
                             requiredParam := bp.requiredParam },
                value := bp.value }) :=
  ⟨fun _ => rfl, fun _ => rfl, fun _ => rfl⟩

/-- C11: `setInfo` returns false for every registry, name and text.  For an
absent name the registry is unchanged.  For a registered name the object
under it is afterwards the old object with `info` replaced by the text and
every other member as it was: an `IntParam` keeps `argStr`, `isRequired`,
`requiredParam`, `isHex` and `value`, a `StringParam` and a `BoolParam` keep
`argStr`, `isRequired`, `requiredParam` and `value`.  The keys are the same
and every other name looks up what it did before. -/
theorem setInfo_spec (ps : Params) (str info : String) :
    (ps.setInfo str info).1 = false ∧
    (ps.getParam str = none → (ps.setInfo str info).2 = ps) ∧
    (∀ p, ps.getParam str = some p →
      (ps.setInfo str info).2.getParam str = some (p.setInfo info) ∧
      (p.setInfo info).info = info ∧
      (p.setInfo info).setInfo p.info = p ∧
      (p.setInfo info).argStr = p.argStr ∧
      (p.setInfo info).isRequired = p.isRequired ∧
      (p.setInfo info).isSet = p.isSet ∧
      (p.setInfo info).valToString = p.valToString) ∧
    (ps.setInfo str info).2.keys = ps.keys ∧
    (∀ m, m ≠ str → (ps.setInfo str info).2.getParam m = ps.getParam m) ∧
    (∀ ip : IntParam, ps.getParam str = some (.int ip) →
      (ps.setInfo str info).2.getParam str
        = some (.int { toParam := { argStr := ip.argStr, info := info,
                                    isRequired := ip.isRequired,
                                    requiredParam := ip.requiredParam },
                       isHex := ip.isHex, value := ip.value })) ∧
    (∀ sp : StringParam, ps.getParam str = some (.string sp) →
      (ps.setInfo str info).2.getParam str
        = some (.string { toParam := { argStr := sp.argStr, info := info,
                                       isRequired := sp.isRequired,
                                       requiredParam := sp.requiredParam },
                          value := sp.value })) ∧
    (∀ bp : BoolParam, ps.getParam str = some (.bool bp) →
      (ps.setInfo str info).2.getParam str
        = some (.bool { toParam := { argStr := bp.argStr, info := info,
                                     isRequired := bp.isRequired,
                                     requiredParam := bp.requiredParam },
                        value := bp.value })) := by
  have hframe := ParamObj.setInfo_frame
  have hmem := ParamObj.setInfo_members info
  have hset : ∀ q, ps.getParam str = some q →
      (ps.setInfo str info).2.getParam str = some (ParamObj.setInfo info q) := by
    intro q hq
    have hq2 : mapFind str ps.myParams = some q := hq
    simp [Params.setInfo, hq, Params.getParam, mapFind_mapUpdate_self, hq2]
  refine ⟨?_, ?_, ?_, ?_, ?_, ?_, ?_, ?_⟩
  · cases hfind : ps.getParam str <;> simp [Params.setInfo, hfind]
  · intro hnone
    simp [Params.setInfo, hnone]
  · intro p hp
    obtain ⟨h1, h2, h3, h4, h5, h6, _⟩ := hframe p info
    exact ⟨hset p hp, h1, h2, h3, h4, h5, h6⟩
  · cases hfind : ps.getParam str with
    | none => simp [Params.setInfo, hfind]
    | some q => simp [Params.setInfo, hfind, Params.keys, mapUpdate_keys]
  · intro m hm
    cases hfind : ps.getParam str with
    | none => simp [Params.setInfo, hfind]
    | some q =>
      have hfind2 : mapFind str ps.myParams = some q := hfind
      simp [Params.setInfo, hfind, hfind2, Params.getParam,
        mapFind_mapUpdate_other _ _ _ _ hm]
  · intro ip hip
    rw [hset _ hip, hmem.1 ip]
  · intro sp hsp
    rw [hset _ hsp, hmem.2.1 sp]
  · intro bp hbp
    rw [hset _ hbp, hmem.2.2 bp]

/-- Witness of `setInfo_spec`: the absent name `depth` and the registered
names `mode` and `verbose` on the sample registry, and the registered `name`
on the registry with the one string parameter. -/
theorem setInfo_spec_witness :
    (sampleParams.setInfo "depth" "how deep").2 = sampleParams ∧
    (sampleParams.setInfo "mode" "the mode").2.getParam "mode"
      = some ((ParamObj.int (IntParam.new "mode" true false)).setInfo "the mode") ∧
    (sampleParams.setInfo "mode" "the mode").2.getParam "verbose"
      = sampleParams.getParam "verbose" ∧
    (sampleParams.setInfo "mode" "the mode").2.getParam "mode"
      = some (.int { toParam := { argStr := "mode", info := "the mode", isRequired := true,
                                  requiredParam := true },
                     isHex := false, value := 2 ^ 64 - 1 }) ∧
    (stringOnlyParams.setInfo "name" "who").2.getParam "name"
      = some (.string { toParam := { argStr := "name", info := "who", isRequired := false,
                                     requiredParam := true },
                        value := "" }) ∧
    (sampleParams.setInfo "verbose" "talk").2.getParam "verbose"
      = some (.bool { toParam := { argStr := "verbose", info := "talk", isRequired := false,
                                   requiredParam := false },
                      value := false }) :=
  ⟨(setInfo_spec sampleParams "depth" "how deep").2.1 (by decide),
   ((setInfo_spec sampleParams "mode" "the mode").2.2.1 _ (by decide)).1,
   (setInfo_spec sampleParams "mode" "the mode").2.2.2.2.1 "verbose" (by decide),
   (setInfo_spec sampleParams "mode" "the mode").2.2.2.2.2.1
     (IntParam.new "mode" true false) (by decide),
   (setInfo_spec stringOnlyParams "name" "who").2.2.2.2.2.2.1
     (StringParam.new "name" false) (by decide),
   (setInfo_spec sampleParams "verbose" "talk").2.2.2.2.2.2.2
     (BoolParam.new "verbose" false) (by decide)⟩

/-- C12: `isSet (name)` is true exactly when the name is registered and the
object under it reports `isSet ()`; it is false for a name that is not
registered.  An `IntParam` reports it when its value is not the sentinel
`2 ^ 64 - 1`, a `StringParam` when its value is not empty, a `BoolParam`
when its value is true. -/
theorem isSet_iff (ps : Params) (str : String) :
    (ps.isSet str = true ↔ ∃ p, ps.getParam str = some p ∧ p.isSet = true) ∧
    (ps.getParam str = none → ps.isSet str = false) ∧
    (∀ ip : IntParam, (ParamObj.int ip).isSet = true ↔ ip.value ≠ 2 ^ 64 - 1) ∧
    (∀ sp : StringParam, (ParamObj.string sp).isSet = true ↔ sp.value ≠ "") ∧
    (∀ bp : BoolParam, (ParamObj.bool bp).isSet = true ↔ bp.value = true) := by
  refine ⟨?_, ?_, ?_, ?_, ?_⟩
  · unfold Params.isSet Params.getParam
    cases mapFind str ps.myParams with
    | none => simp
    | some p => simp
  · intro h
    have h2 : mapFind str ps.myParams = none := h
    simp [Params.isSet, h2]
  · intro ip
    have hs : toUInt64 PARAM_UNINITIALIZED = 2 ^ 64 - 1 := by decide
    simp [ParamObj.isSet, IntParam.isSet, hs]
  · intro sp
    have hlen : sp.value.length > 0 ↔ sp.value ≠ "" := by
      cases hv : sp.value with
      | mk cs =>
        cases cs with
        | nil => simp [String.length]
        | cons c cs =>
          have hne : String.mk (c :: cs) ≠ "" := fun h => by
            have := congrArg String.data h
            simp at this
          simp [String.length, hne]
    simp [ParamObj.isSet, StringParam.isSet, hlen]
  · intro bp
    simp [ParamObj.isSet, BoolParam.isSet]

/-- Witness of `isSet_iff`: the name `depth` is not registered in the sample
registry. -/
theorem isSet_iff_witness :
    sampleParams.getParam "depth" = none ∧ sampleParams.isSet "depth" = false :=
  ⟨by decide, (isSet_iff sampleParams "depth").2.1 (by decide)⟩

/-! ## `IntParam::parse`: the sentinel and failed scans -/

/-- C13, the claim at the token `FFFFFFFFFFFFFFFF`: the token is a valid
hexadecimal numeral whose value fits 64 bits, and after `parse` the value is
the sentinel, so `isSet` is false. -/
theorem IntParam.parse_hex_max_is_sentinel :
    ¬ (hexParam.isHex = true →
        isNumeral hexDigitValue "FFFFFFFFFFFFFFFF".toList →
        positional 16 hexDigitValue "FFFFFFFFFFFFFFFF".toList < 2 ^ 64 →
        (hexParam.parse (some "FFFFFFFFFFFFFFFF")).2.value ≠ 2 ^ 64 - 1 ∧
        (hexParam.parse (some "FFFFFFFFFFFFFFFF")).2.isSet = true) := by
  decide

/-- C13, amended: after `parse` of a valid numeral whose value fits 64 bits
the value is not the sentinel and `isSet` is true, for a decimal parameter
always and for a hexadecimal parameter when the numeral is not the sentinel
`2 ^ 64 - 1` itself. -/
theorem IntParam.parse_isSet (p : IntParam) (s : String) :
    (∀ ds : List Char, p.isHex = false → s.toList = ds →
      isNumeral decDigitValue ds → positional 10 decDigitValue ds < 2 ^ 64 →
      (p.parse (some s)).2.value ≠ 2 ^ 64 - 1 ∧ (p.parse (some s)).2.isSet = true) ∧
    (∀ pre ds : List Char, p.isHex = true → s.toList = pre ++ ds →
      (pre = [] ∨ pre = ['0', 'x'] ∨ pre = ['0', 'X']) →
      isNumeral hexDigitValue ds → positional 16 hexDigitValue ds < 2 ^ 64 →
      positional 16 hexDigitValue ds ≠ 2 ^ 64 - 1 →
      (p.parse (some s)).2.value ≠ 2 ^ 64 - 1 ∧ (p.parse (some s)).2.isSet = true) := by
  have hs : toUInt64 PARAM_UNINITIALIZED = 2 ^ 64 - 1 := by decide
  have hset : ∀ q : IntParam, q.value ≠ 2 ^ 64 - 1 → q.isSet = true := by
    intro q hq
    simpa [IntParam.isSet, hs] using hq
  constructor
  · intro ds hdec _ _ _
    have hlt := IntParam.parse_dec_lt p hdec s
    have hne : (p.parse (some s)).2.value ≠ 2 ^ 64 - 1 := by omega
    exact ⟨hne, hset _ hne⟩
  · intro pre ds hhex hsd hpre hnum hfit hmax
    have hval : (p.parse (some s)).2.value = positional 16 hexDigitValue ds := by
      simp [IntParam.parse, hhex, sscanf1_hex_numeral s pre ds hsd hpre hnum, storeU64,
        Scan.ret, toUInt64_of_lt _ hfit]
    have hne : (p.parse (some s)).2.value ≠ 2 ^ 64 - 1 := by
      rw [hval]
      exact hmax
    exact ⟨hne, hset _ hne⟩

/-- Witness of `IntParam.parse_isSet`: the token `42` on a fresh decimal
parameter and the token `0xff` on a fresh hexadecimal one. -/
theorem IntParam.parse_isSet_witness :
    (decParam.parse (some "42")).2.isSet = true ∧
    (hexParam.parse (some "0xff")).2.isSet = true :=
  ⟨((IntParam.parse_isSet decParam "42").1 ['4', '2'] (by decide) (by decide) (by decide)
      (by decide)).2,
   ((IntParam.parse_isSet hexParam "0xff").2 ['0', 'x'] ['f', 'f'] (by decide) (by decide)
      (by decide) (by decide) (by decide) (by decide)).2⟩

/-- C14, the claim at the token `abc` on a decimal parameter that holds 7:
`sscanf` does not return 1, and after `parse` the value is 0, not 7. -/
theorem IntParam.parse_failed_scan_resets :
    ¬ ((sscanf1 10 "abc").ret ≠ 1 →
        (sevenParam.parse (some "abc")).2.value = sevenParam.value) := by
  decide

/-- C14, amended: when `sscanf` in the radix of the parameter does not
return 1 on a present token, that is, assigns nothing, `parse` returns true and sets the value to 0,
whatever it was, and changes nothing else. -/
theorem IntParam.parse_failed_scan (p : IntParam) (s : String)
    (hfail : (sscanf1 (if p.isHex then 16 else 10) s).ret ≠ 1) :
    p.parse (some s) = (true, { p with value := 0 }) := by
  unfold IntParam.parse
  by_cases hhex : p.isHex = true
  · simp only [hhex, if_true] at hfail ⊢
    cases hsc : sscanf1 16 s with
    | inputFailure => simp [storeU64, Scan.ret]
    | matchFailure => simp [storeU64, Scan.ret, sscanfInvalid]
    | assigned n => exact absurd (by rw [hsc]; rfl) hfail
  · have hdec : p.isHex = false := by simpa using hhex
    simp only [hdec, Bool.false_eq_true, if_false] at hfail ⊢
    cases hsc : sscanf1 10 s with
    | inputFailure => simp [storeIntInU64]
    | matchFailure => simp [storeIntInU64]
    | assigned n => exact absurd (by rw [hsc]; rfl) hfail

/-- Witness of `IntParam.parse_failed_scan`: the token `xyz` on a fresh
hexadecimal parameter. -/
theorem IntParam.parse_failed_scan_witness :
    (sscanf1 16 "xyz").ret ≠ 1 ∧
    hexParam.parse (some "xyz") = (true, { hexParam with value := 0 }) :=
  ⟨by decide, IntParam.parse_failed_scan hexParam "xyz" (by decide)⟩

/-! ## The registry invariant -/

theorem keyLess_iff (a b : String) : keyLess a b = true ↔ a < b := by
  unfold keyLess
  rw [decide_eq_true_iff]
  exact String.lt_iff_toList_lt.symm

theorem keyLess_trans (a b c : String) (h1 : keyLess a b = true) (h2 : keyLess b c = true) :
    keyLess a c = true := by
  rw [keyLess_iff] at *
  exact lt_trans h1 h2

theorem keyLess_ne (a b : String) (h : keyLess a b = true) : a ≠ b := by
  rw [keyLess_iff] at h
  exact ne_of_lt h

theorem keyLess_of_not (a b : String) (h1 : ¬ keyLess a b = true) (h2 : b ≠ a) :
    keyLess b a = true := by
  rw [keyLess_iff] at *
  rcases lt_trichotomy a b with h | h | h
  · exact absurd h h1
  · exact absurd h.symm h2
  · exact h

theorem mapFind_mem (key : String) (p : ParamObj) (l : List (String × ParamObj))
    (h : mapFind key l = some p) : (key, p) ∈ l := by
  induction l with
  | nil => simp [mapFind] at h
  | cons e rest ih =>
    obtain ⟨k, q⟩ := e
    by_cases hk : k = key
    · subst hk
      simp only [mapFind, if_true, Option.some.injEq] at h
      subst h
      exact List.mem_cons_self _ _
    · simp only [mapFind, hk, if_false] at h
      exact List.mem_cons_of_mem _ (ih h)

/-- An entry of the map after `myParams[key] = param` is the new entry or an
old one. -/
theorem mem_mapAssign (key : String) (param : ParamObj) (l : List (String × ParamObj))
    (e : String × ParamObj) (he : e ∈ mapAssign key param l) :
    e = (key, param) ∨ e ∈ l := by
  induction l with
  | nil =>
    simp only [mapAssign, List.mem_singleton] at he
    exact Or.inl he
  | cons x rest ih =>
    obtain ⟨k, q⟩ := x
    unfold mapAssign at he
    by_cases h1 : keyLess key k = true
    · simp only [h1, if_true, List.mem_cons] at he
      rcases he with he | he | he
      · exact Or.inl he
      · exact Or.inr (he ▸ List.mem_cons_self _ _)
      · exact Or.inr (List.mem_cons_of_mem _ he)
    · have h1f : keyLess key k = false := by simpa using h1
      by_cases h2 : k = key
      · subst h2
        simp only [h1f, Bool.false_eq_true, if_true, if_false, List.mem_cons] at he
        rcases he with he | he
        · exact Or.inl he
        · exact Or.inr (List.mem_cons_of_mem _ he)
      · simp only [h1f, h2, Bool.false_eq_true, if_false, List.mem_cons] at he
        rcases he with he | he
        · exact Or.inr (he ▸ List.mem_cons_self _ _)
        · rcases ih he with h | h
          · exact Or.inl h
          · exact Or.inr (List.mem_cons_of_mem _ h)

/-- An entry of the map after a store through the pointer under `key` is an
old entry or the changed object under `key`. -/
theorem mem_mapUpdate (key : String) (f : ParamObj → ParamObj)
    (l : List (String × ParamObj)) (e : String × ParamObj) (he : e ∈ mapUpdate key f l) :
    e ∈ l ∨ ∃ p, mapFind key l = some p ∧ e = (key, f p) := by
  induction l with
  | nil => simp [mapUpdate] at he
  | cons x rest ih =>
    obtain ⟨k, q⟩ := x
    by_cases hk : k = key
    · subst hk
      simp only [mapUpdate, if_true, List.mem_cons] at he
      rcases he with he | he
      · exact Or.inr ⟨q, by simp [mapFind], he⟩
      · exact Or.inl (List.mem_cons_of_mem _ he)
    · simp only [mapUpdate, hk, if_false, List.mem_cons] at he
      rcases he with he | he
      · exact Or.inl (he ▸ List.mem_cons_self _ _)
      · rcases ih he with h | ⟨p, hp, hep⟩
        · exact Or.inl (List.mem_cons_of_mem _ h)
        · exact Or.inr ⟨p, by simp [mapFind, hk, hp], hep⟩

/-- Assignment keeps the keys in strictly increasing order. -/
theorem mapAssign_sorted (key : String) (param : ParamObj) (l : List (String × ParamObj))
    (h : (l.map Prod.fst).Pairwise fun a b => keyLess a b = true) :
    ((mapAssign key param l).map Prod.fst).Pairwise fun a b => keyLess a b = true := by
  induction l with
  | nil => simp [mapAssign]
  | cons x rest ih =>
    obtain ⟨k, q⟩ := x
    simp only [List.map_cons, List.pairwise_cons] at h
    obtain ⟨hk, hrest⟩ := h
    unfold mapAssign
    by_cases h1 : keyLess key k = true
    · simp only [h1, if_true, List.map_cons, List.pairwise_cons]
      refine ⟨?_, hk, hrest⟩
      intro b hb
      rcases List.mem_cons.1 hb with hb | hb
      · rw [hb]
        exact h1
      · exact keyLess_trans _ _ _ h1 (hk b hb)
    · have h1f : keyLess key k = false := by simpa using h1
      by_cases h2 : k = key
      · subst h2
        simp only [h1f, Bool.false_eq_true, if_true, if_false, List.map_cons,
          List.pairwise_cons]
        exact ⟨hk, hrest⟩
      · simp only [h1f, h2, Bool.false_eq_true, if_false, List.map_cons, List.pairwise_cons]
        refine ⟨?_, ih hrest⟩
        intro b hb
        obtain ⟨e, he, rfl⟩ := List.mem_map.1 hb
        rcases mem_mapAssign key param rest e he with h | h
        · rw [h]
          exact keyLess_of_not key k h1 h2
        · exact hk e.1 (List.mem_map.2 ⟨e, h, rfl⟩)

/-- Each call keeps the invariant: every key is the `argStr` of its object
and the keys are in strictly increasing order. -/
theorem call_keeps_invariant (ps : Params) (c : Call)
    (h : ps.keysMatch ∧ ps.keysSorted) :
    (ps.call c).keysMatch ∧ (ps.call c).keysSorted := by
  obtain ⟨hm, hs⟩ := h
  cases c with
  | addParam param =>
    cases param with
    | none => exact ⟨hm, hs⟩
    | some p =>
      refine ⟨?_, mapAssign_sorted _ _ _ hs⟩
      intro e he
      rcases mem_mapAssign _ _ _ e he with h | h
      · rw [h]
      · exact hm e h
  | setIntValue str val =>
    cases hfind : ps.getParam str with
    | none =>
      simp only [Params.call, Params.setIntValue, hfind]
      exact ⟨hm, hs⟩
    | some q =>
      cases q with
      | int ip =>
        have hfind2 : mapFind str ps.myParams = some (.int ip) := hfind
        simp only [Params.call, Params.setIntValue, hfind]
        constructor
        · intro e he
          rcases mem_mapUpdate _ _ _ e he with h | ⟨p, hp, hep⟩
          · exact hm e h
          · have hkey := hm _ (mapFind_mem _ _ _ hfind2)
            rw [hep]
            exact hkey
        · unfold Params.keysSorted Params.keys
          rw [mapUpdate_keys]
          exact hs
      | string sp =>
        simp only [Params.call, Params.setIntValue, hfind]
        exact ⟨hm, hs⟩
      | bool bp =>
        simp only [Params.call, Params.setIntValue, hfind]
        exact ⟨hm, hs⟩
  | setInfo str info =>
    cases hfind : ps.getParam str with
    | none =>
      simp only [Params.call, Params.setInfo, hfind]
      exact ⟨hm, hs⟩
    | some q =>
      have hfind2 : mapFind str ps.myParams = some q := hfind
      simp only [Params.call, Params.setInfo, hfind]
      constructor
      · intro e he
        rcases mem_mapUpdate _ _ _ e he with h | ⟨p, hp, hep⟩
        · exact hm e h
        · have hkey := hm _ (mapFind_mem _ _ _ hp)
          rw [hep]
          exact hkey.trans (ParamObj.setInfo_frame p info).2.2.1.symm
      · unfold Params.keysSorted Params.keys
        rw [mapUpdate_keys]
        exact hs
  | releaseParams =>
    constructor
    · intro e he
      simp [Params.call, Params.releaseParams] at he
    · simp [Params.call, Params.releaseParams, Params.keysSorted, Params.keys]

theorem run_keeps_invariant (calls : List Call) (ps : Params)
    (h : ps.keysMatch ∧ ps.keysSorted) :
    (ps.run calls).keysMatch ∧ (ps.run calls).keysSorted := by
  induction calls generalizing ps with
  | nil => exact h
  | cons c cs ih => exact ih (ps.call c) (call_keeps_invariant ps c h)

/-- C15: after any sequence of `addParam`, `setIntValue`, `setInfo` and
`releaseParams` calls on an empty registry, every key of the map is the
`argStr` of the object stored under it, no key occurs twice, and a name that
is found is the `argStr` of the object found. -/
theorem registry_invariant (calls : List Call) :
    (∀ e ∈ (Params.new.run calls).myParams, e.1 = e.2.argStr) ∧
    (Params.new.run calls).keys.Nodup ∧
    (∀ str p, (Params.new.run calls).getParam str = some p → p.argStr = str) := by
  have hnew : Params.new.keysMatch ∧ Params.new.keysSorted := by
    constructor
    · intro e he
      simp [Params.new] at he
    · simp [Params.new, Params.keysSorted, Params.keys]
  obtain ⟨hm, hs⟩ := run_keeps_invariant calls Params.new hnew
  refine ⟨hm, ?_, ?_⟩
  · exact List.Pairwise.imp (fun {a b} hab => keyLess_ne a b hab) hs
  · intro str p hp
    exact (hm _ (mapFind_mem _ _ _ hp)).symm

/-- Witness of `registry_invariant`: a name found after four calls. -/
theorem registry_invariant_witness :
    (ParamObj.int { decParam with value := 4, info := "how many" }).argStr = "count" :=
  (registry_invariant [.addParam (some (.int hexParam)), .addParam (some (.int decParam)),
    .setIntValue "count" 4, .setInfo "count" "how many"]).2.2 "count"
    (.int { decParam with value := 4, info := "how many" }) (by decide)

/-! ## Absent tokens, fresh objects, release -/

/-- C16: `IntParam::parse` and `StringParam::parse` return false exactly
when the token is the null pointer; for every present token, whatever its
text, they return true; with the null pointer the object, and so its value
and `isSet`, is left as it was. -/
theorem parse_false_iff_absent (ip : IntParam) (sp : StringParam) (arg : Option String) :
    ((ip.parse arg).1 = false ↔ arg = none) ∧
    ((sp.parse arg).1 = false ↔ arg = none) ∧
    (∀ s : String, (ip.parse (some s)).1 = true ∧ (sp.parse (some s)).1 = true) ∧
    ip.parse none = (false, ip) ∧
    sp.parse none = (false, sp) ∧
    (ip.parse none).2.isSet = ip.isSet ∧
    (sp.parse none).2.isSet = sp.isSet := by
  have hint : ∀ s : String, (ip.parse (some s)).1 = true := by
    intro s
    unfold IntParam.parse
    simp only
    split <;> rfl
  refine ⟨?_, ?_, fun s => ⟨hint s, rfl⟩, rfl, rfl, rfl, rfl⟩
  · cases arg with
    | none => simp [IntParam.parse]
    | some s => simp [hint s]
  · cases arg with
    | none => simp [StringParam.parse]
    | some s => simp [StringParam.parse]

/-- C17: a fresh object of each class is unset: an `IntParam` holds the
sentinel `2 ^ 64 - 1`, a `StringParam` the empty text, a `BoolParam` false,
and `isSet` is false for each.  A registry with an entry that is required
and reports `isSet` false, as a required object never parsed or set does,
has `hasRequiredFilled` false; so has the sample registry after the flag
`verbose` alone was parsed. -/
theorem fresh_unset (argStr : String) (isRequired isHex : Bool) (ps : Params) :
    (IntParam.new argStr isRequired isHex).value = 2 ^ 64 - 1 ∧
    (IntParam.new argStr isRequired isHex).isSet = false ∧
    (StringParam.new argStr isRequired).value = "" ∧
    (StringParam.new argStr isRequired).isSet = false ∧
    (BoolParam.new argStr isRequired).value = false ∧
    (BoolParam.new argStr isRequired).isSet = false ∧
    ((∃ e ∈ ps.myParams, e.2.isRequired = true ∧ e.2.isSet = false) →
      ps.hasRequiredFilled = false) ∧
    (verboseOnlyParams.getParam "mode" = some (.int (IntParam.new "mode" true false)) ∧
      verboseOnlyParams.isSet "verbose" = true ∧
      verboseOnlyParams.hasRequiredFilled = false) := by
  have hs : toUInt64 PARAM_UNINITIALIZED = 2 ^ 64 - 1 := by decide
  refine ⟨hs, ?_, rfl, ?_, rfl, rfl, ?_, by decide⟩
  · simp [IntParam.isSet, IntParam.new]
  · show decide (("" : String).length > 0) = false
    decide
  rintro ⟨e, he, hr, hs⟩
  cases hfill : ps.hasRequiredFilled with
  | false => rfl
  | true =>
    have := (hasRequiredFilledFrom_iff ps.myParams).1 hfill e he hr
    rw [hs] at this
    exact absurd this (by decide)

/-- Witness of `fresh_unset`: the sample registry, whose required `mode`
is fresh. -/
theorem fresh_unset_witness :
    (∃ e ∈ sampleParams.myParams, e.2.isRequired = true ∧ e.2.isSet = false) ∧
    sampleParams.hasRequiredFilled = false :=
  ⟨by decide, (fresh_unset "mode" true false sampleParams).2.2.2.2.2.2.1 (by decide)⟩

/-- C18: after `releaseParams` the registry is empty: for every name `isSet`
is false, `getIntValue` is the sentinel, `setIntValue` and `setInfo` return
false and leave it empty, `hasRequiredFilled` is true; a second
`releaseParams` leaves it empty. -/
theorem releaseParams_empty (ps : Params) (str info : String) (val : Nat) :
    ps.releaseParams.myParams = [] ∧
    ps.releaseParams.size = 0 ∧
    ps.releaseParams.getParam str = none ∧
    ps.releaseParams.isSet str = false ∧
    ps.releaseParams.getIntValue str = 2 ^ 64 - 1 ∧
    ps.releaseParams.setIntValue str val = (false, ps.releaseParams) ∧
    ps.releaseParams.setInfo str info = (false, ps.releaseParams) ∧
    ps.releaseParams.hasRequiredFilled = true ∧
    ps.releaseParams.releaseParams = ps.releaseParams ∧
    ps.releaseParams.releaseParams.myParams = [] := by
  have hs : toUInt64 PARAM_UNINITIALIZED = 2 ^ 64 - 1 := by decide
  exact ⟨rfl, rfl, rfl, rfl, hs, rfl, rfl, rfl, rfl, rfl⟩

/-! ## The frame of `setIntValue`; tokens without a number -/

/-- C19: a successful `setIntValue` changes the member `value` of the object
under the name and nothing else: that object keeps `isHex`, `isRequired`,
`info` and `argStr`, the keys and their order are the same, and every other
name looks up the object it did before, so `getIntValue` and `isSet` of
every other name are the same. -/
theorem setIntValue_frame (ps : Params) (str : String) (val : Nat) (ip : IntParam)
    (h : ps.getParam str = some (.int ip)) :
    (ps.setIntValue str val).1 = true ∧
    (ps.setIntValue str val).2.getParam str = some (.int { ip with value := val }) ∧
    ({ ip with value := val } : IntParam).isHex = ip.isHex ∧
    ({ ip with value := val } : IntParam).toParam = ip.toParam ∧
    (ps.setIntValue str val).2.keys = ps.keys ∧
    (ps.setIntValue str val).2.size = ps.size ∧
    (∀ m, m ≠ str →
      (ps.setIntValue str val).2.getParam m = ps.getParam m ∧
      (ps.setIntValue str val).2.getIntValue m = ps.getIntValue m ∧
      (ps.setIntValue str val).2.isSet m = ps.isSet m) := by
  have hfind : mapFind str ps.myParams = some (.int ip) := h
  have hkeys : (ps.setIntValue str val).2.keys = ps.keys := by
    simp [Params.setIntValue, h, Params.keys, mapUpdate_keys]
  refine ⟨?_, ?_, rfl, rfl, hkeys, ?_, ?_⟩
  · simp [Params.setIntValue, h]
  · simp [Params.setIntValue, h, Params.getParam, mapFind_mapUpdate_self, hfind]
  · have := congrArg List.length hkeys
    simpa [Params.keys, Params.size] using this
  · intro m hm
    have hother : mapFind m (ps.setIntValue str val).2.myParams = mapFind m ps.myParams := by
      simp [Params.setIntValue, h, mapFind_mapUpdate_other _ _ _ _ hm]
    refine ⟨hother, ?_, ?_⟩
    · unfold Params.getIntValue
      rw [hother]
    · unfold Params.isSet
      rw [hother]

/-- Witness of `setIntValue_frame`: `mode` is set to 3 in the sample
registry, and `verbose` looks up what it did. -/
theorem setIntValue_frame_witness :
    sampleParams.getParam "mode" = some (.int (IntParam.new "mode" true false)) ∧
    (sampleParams.setIntValue "mode" 3).2.getParam "verbose"
      = sampleParams.getParam "verbose" :=
  ⟨by decide,
   ((setIntValue_frame sampleParams "mode" 3 (IntParam.new "mode" true false)
      (by decide)).2.2.2.2.2.2 "verbose" (by decide)).1⟩

theorem skipSpace_eq_dropWhile (cs : List Char) : skipSpace cs = cs.dropWhile isSpace := by
  induction cs with
  | nil => rfl
  | cons c cs ih =>
    by_cases h : isSpace c = true
    · simp [skipSpace, List.dropWhile, h, ih]
    · simp [skipSpace, List.dropWhile, h]

/-- Nothing is consumed from an input that does not start with a digit. -/
theorem scanDigits_no_digit (base : Nat) (cs : List Char) (acc cnt : Nat)
    (h : (cs.head?.bind (digitVal base)).isSome = false) :
    scanDigits base cs acc cnt = (acc, cnt) := by
  cases cs with
  | nil => rfl
  | cons c cs =>
    simp only [List.head?_cons, Option.some_bind] at h
    cases hd : digitVal base c with
    | none => simp [scanDigits, hd]
    | some d => simp [hd] at h

/-- On a token that does not begin with a decimal integer the decimal
directive assigns nothing. -/
theorem sscanf1_dec_fails (s : String) (h : beginsWithDecimal s = false) :
    (sscanf1 10 s).ret ≠ 1 := by
  unfold beginsWithDecimal at h
  unfold sscanf1
  rw [skipSpace_eq_dropWhile]
  have hdv : digitVal 10 = decDigitValue := funext digitVal_dec
  cases hcs : s.toList.dropWhile isSpace with
  | nil => decide
  | cons c rest =>
    rw [hcs] at h
    simp only
    by_cases hm : c = '-'
    · subst hm
      simp only at h
      have := scanDigits_no_digit 10 rest 0 0 (by rw [hdv]; exact h)
      simp [scanSign, this, Scan.ret]
    · by_cases hp : c = '+'
      · subst hp
        simp only at h
        have := scanDigits_no_digit 10 rest 0 0 (by rw [hdv]; exact h)
        simp [scanSign, this, Scan.ret]
      · have hc : (decDigitValue c).isSome = false := by
          split at h
          · rename_i heq
            exact absurd heq (by simp)
          · rename_i heq
            exact absurd (List.cons.inj heq).1 hm
          · rename_i heq
            exact absurd (List.cons.inj heq).1 hp
          · rename_i heq
            rw [(List.cons.inj heq).1]
            exact h
        have hnone := scanDigits_no_digit 10 (c :: rest) 0 0
          (by rw [hdv]; simpa using hc)
        rw [scanSign_of_unsigned c rest hm hp]
        simp [hnone, Scan.ret]

/-- C20: `BoolParam::parse` of a present token that does not begin with a
decimal integer (after white space, if any, and a sign, if any, there is no
decimal digit) returns true and sets the value to false, whatever it was,
and changes nothing else, so `isSet` is false afterwards. -/
theorem BoolParam.parse_no_number (p : BoolParam) (s : String)
    (h : beginsWithDecimal s = false) :
    p.parse (some s) = (true, { p with value := false }) ∧
    (p.parse (some s)).2.isSet = false := by
  have hret := sscanf1_dec_fails s h
  have hval : storeU32 0 (sscanf1 10 s) = 0 := by
    cases hsc : sscanf1 10 s with
    | inputFailure => rfl
    | matchFailure => rfl
    | assigned n => exact absurd (by rw [hsc]; rfl) hret
  have hparse : p.parse (some s) = (true, { p with value := false }) := by
    simp [BoolParam.parse, hval]
  exact ⟨hparse, by rw [hparse]; rfl⟩

/-- Witness of `BoolParam.parse_no_number`: the tokens `yes`, `true` and the
empty token on a parameter that an earlier bare flag has set to true. -/
theorem BoolParam.parse_no_number_witness :
    flagParam.value = true ∧
    (flagParam.parse (some "yes")).2.isSet = false ∧
    (flagParam.parse (some "true")).2.isSet = false ∧
    (flagParam.parse (some "")).2.isSet = false :=
  ⟨by decide,
   (BoolParam.parse_no_number flagParam "yes" (by decide)).2,
   (BoolParam.parse_no_number flagParam "true" (by decide)).2,
   (BoolParam.parse_no_number flagParam "" (by decide)).2⟩

end paramkit
